import Mathlib

/-!
Verification of the indexed user record store of GameOn-Gear
(`EnhancedUserDatabase`, src/unnamed/part_000).

Shallow embedding notes:
* JavaScript `Map` objects are embedded as insertion-ordered association
  lists (`mapGet` / `mapSet` / `mapDelete` / `mapHas` mirror `get` / `set` /
  `delete` / `has`); `Set` objects are embedded as duplicate-free lists
  (`setAdd` / `setDelete` mirror `add` / `delete`).
* User identifiers are opaque generated strings in the source
  (`user_${Date.now()}_${random}`); the store only ever compares them for
  equality, so they are embedded as naturals drawn from a monotone counter
  `nextId` carried in the state, which models the uniqueness the
  clock-plus-entropy scheme provides.
* Timestamps (`Date.now()`, ISO `createdAt` strings compared through
  `Date`) are embedded as naturals measuring milliseconds; operations that
  read the clock take `now : Nat` explicitly.
* `String.prototype.toLowerCase` / `trim` / `split(' ')` / `includes` are
  embedded character-listwise (`lowerChars`, `trimChars`, `jsSplit`,
  `containsSub`) with the exact JavaScript behaviour on ASCII data
  (e.g. `"".split(' ')` is `[""]`, `"a  b".split(' ')` is `["a","","b"]`).
* JavaScript numbers holding money (`totalSpent`, `averageOrderValue`) are
  embedded as rationals; counts are naturals.
* Methods that `throw` are embedded as returning `Except String … × DB`,
  the returned state being the state at the moment of the throw.
* Fields of the record never read by any store operation under
  verification (avatar URL, preferences, profile sub-record) are omitted;
  `Partial<User>` update payloads are embedded as a record of `Option`
  fields for the attributes the store reads or indexes.
-/

/-! ## Association-list maps and sets (JavaScript `Map` / `Set`) -/

def mapGet {κ α : Type} [DecidableEq κ] : List (κ × α) → κ → Option α
  | [], _ => none
  | (k', v) :: rest, k => if k' = k then some v else mapGet rest k

def mapHas {κ α : Type} [DecidableEq κ] (m : List (κ × α)) (k : κ) : Bool :=
  (mapGet m k).isSome

def mapSet {κ α : Type} [DecidableEq κ] : List (κ × α) → κ → α → List (κ × α)
  | [], k, v => [(k, v)]
  | (k', v') :: rest, k, v =>
    if k' = k then (k, v) :: rest else (k', v') :: mapSet rest k v

def mapDelete {κ α : Type} [DecidableEq κ] (m : List (κ × α)) (k : κ) : List (κ × α) :=
  m.filter (fun p => p.1 ≠ k)

def setAdd (s : List Nat) (x : Nat) : List Nat :=
  if x ∈ s then s else s ++ [x]

def setDelete (s : List Nat) (x : Nat) : List Nat :=
  s.filter (fun y => y ≠ x)

/-! ## JavaScript string primitives -/

/-- Characters treated as whitespace by `String.prototype.trim`
(restricted to the ASCII whitespace that can realistically occur in the
store's email fields). -/
def isSpaceChar (c : Char) : Bool :=
  c = ' ' ∨ c = '\t' ∨ c = '\n' ∨ c = '\r'

/-- `String.prototype.trim` on a character list. -/
def trimChars (l : List Char) : List Char :=
  ((l.dropWhile isSpaceChar).reverse.dropWhile isSpaceChar).reverse

/-- `String.prototype.toLowerCase` on a character list (ASCII case map,
as in `Char.toLower`). -/
def lowerChars (l : List Char) : List Char :=
  l.map Char.toLower

/-- `s.trim()` on strings (character-listwise, see `trimChars`). -/
def jsTrim (s : String) : String :=
  String.mk (trimChars s.data)

/-- `s.toLowerCase().trim()`, the email normalization used throughout the
store (`createUser`, `updateUser`, `findUserByEmail`). -/
def normalizeEmail (s : String) : String :=
  String.mk (trimChars (lowerChars s.data))

/-- `String.prototype.split(sep)` for a single-character separator, on a
character list: always returns at least one (possibly empty) field. -/
def jsSplitAux (sep : Char) : List Char → List Char → List String
  | [], acc => [String.mk acc.reverse]
  | c :: rest, acc =>
    if c = sep then String.mk acc.reverse :: jsSplitAux sep rest []
    else jsSplitAux sep rest (c :: acc)

def jsSplit (sep : Char) (s : String) : List String :=
  jsSplitAux sep s.data []

/-- `query.toLowerCase().split(' ')` — the tokenization used by
`buildIndexes`, `updateIndexes`, `deleteUser` and `searchUsers`. -/
def nameTokens (s : String) : List String :=
  jsSplit ' ' (String.mk (lowerChars s.data))

/-- List-level substring test: `isPrefixList needle hay` is true when
`needle` is an initial segment of `hay`. -/
def isPrefixList : List Char → List Char → Bool
  | [], _ => true
  | _ :: _, [] => false
  | a :: as, b :: bs => a = b && isPrefixList as bs

/-- `haystack.includes(needle)` on character lists. -/
def containsSub (needle : List Char) : List Char → Bool
  | [] => isPrefixList needle []
  | c :: rest => isPrefixList needle (c :: rest) || containsSub needle rest

/-- `haystack.includes(needle)` on strings. -/
def strIncludes (haystack needle : String) : Bool :=
  containsSub needle.data haystack.data

/-! ## Data model (src/unnamed/part_000, `User` interface and
`EnhancedUserDatabase` fields) -/

/-- Capacity ceiling, `MAX_USERS = 1000` (line 67). -/
def MAX_USERS : Nat := 1000

/-- The `stats` sub-record of a user (lines 26-31); `lastOrderDate` is
never read by any store operation and is omitted. -/
structure Stats where
  totalOrders : Nat
  totalSpent : ℚ
  loyaltyPoints : Nat
deriving DecidableEq

/-- A record as held in the primary table: the `User` interface plus the
credential secret (`User & { password: string }`, line 60). The `role`
union type `'user' | 'admin' | 'moderator'` is embedded as `String`
because `importUsers` casts an arbitrary CSV field into it (line 477). -/
structure StoredUser where
  id : Nat
  email : String
  name : String
  password : String
  createdAt : Nat
  lastLogin : Option Nat
  isActive : Bool
  role : String
  stats : Stats
deriving DecidableEq

/-- A record as returned from the read APIs: `StoredUser` with the
password destructured away (`const { password, ...rest }`). -/
structure User where
  id : Nat
  email : String
  name : String
  createdAt : Nat
  lastLogin : Option Nat
  isActive : Bool
  role : String
  stats : Stats
deriving DecidableEq

def stripPassword (u : StoredUser) : User :=
  { id := u.id, email := u.email, name := u.name, createdAt := u.createdAt,
    lastLogin := u.lastLogin, isActive := u.isActive, role := u.role,
    stats := u.stats }

/-- The in-memory state of `EnhancedUserDatabase` (lines 60-63), plus the
`nextId` counter standing in for the clock-and-entropy identifier source
(`generateUserId`, lines 588-590). -/
structure DB where
  users : List (Nat × StoredUser)
  emailIndex : List (String × Nat)
  roleIndex : List (String × List Nat)
  nameIndex : List (String × List Nat)
  nextId : Nat
deriving DecidableEq

def emptyDB : DB :=
  { users := [], emailIndex := [], roleIndex := [], nameIndex := [],
    nextId := 0 }

/-- The identifier set stored in a role bucket, empty when the bucket is
absent (how every reader accesses it: `this.roleIndex.get(role) || new
Set()` or guarded by `has`). -/
def roleBucket (db : DB) (r : String) : List Nat :=
  (mapGet db.roleIndex r).getD []

def nameBucket (db : DB) (t : String) : List Nat :=
  (mapGet db.nameIndex t).getD []

/-! ## Operations -/

/-- `updateIndexes(userId, user)` (lines 322-337): add the identifier to
the role bucket and to the bucket of every lower-cased space-delimited
name token. The body of the per-record loop of `buildIndexes`
(lines 144-158) is literally the same code. -/
def addTokenStep (userId : Nat) (ni : List (String × List Nat))
    (token : String) : List (String × List Nat) :=
  mapSet ni token (setAdd ((mapGet ni token).getD []) userId)

def updateIndexes (db : DB) (userId : Nat) (u : StoredUser) : DB :=
  let ri := mapSet db.roleIndex u.role (setAdd (roleBucket db u.role) userId)
  let ni := (nameTokens u.name).foldl (addTokenStep userId) db.nameIndex
  { db with roleIndex := ri, nameIndex := ni }

/-- `userData.role || 'user'` (line 294): JavaScript `||` takes the
default on the empty string as well as on an absent field. -/
def roleOrDefault (r : Option String) : String :=
  match r with
  | some s => if s = "" then "user" else s
  | none => "user"

/-- `createUser(userData)` (lines 273-320). Throws capacity-exceeded at
or above `MAX_US` ceiling before touching anything; otherwise normalizes
the email, trims the name, registers the record in the primary table and
the email index (with no uniqueness check: an existing entry for the same
normalized email is silently overwritten), updates the role and
name-token indexes and returns the record without its password. -/
def newUserRec (userId : Nat) (email name password : String)
    (role : Option String) (now : Nat) : StoredUser :=
  { id := userId, email := normalizeEmail email, name := jsTrim name,
    password := password, createdAt := now, lastLogin := none,
    isActive := true, role := roleOrDefault role,
    stats := { totalOrders := 0, totalSpent := 0, loyaltyPoints := 0 } }

def createUser (db : DB) (email name password : String) (role : Option String)
    (now : Nat) : Except String User × DB :=
  if db.users.length ≥ MAX_USERS then
    (Except.error ("Maximum user limit reached (" ++ toString MAX_USERS ++ ")"),
      db)
  else
    let userId := db.nextId
    let u := newUserRec userId email name password role now
    let db₁ : DB :=
      { db with users := mapSet db.users userId u,
                emailIndex := mapSet db.emailIndex u.email userId,
                nextId := db.nextId + 1 }
    (Except.ok (stripPassword u), updateIndexes db₁ userId u)

/-- A `Partial<User>` payload as accepted by `updateUser` (line 503),
restricted to the attributes the store reads or indexes. `id`,
`createdAt` and the unindexed optional sub-records are never passed by
the application layer and are omitted. -/
structure UserUpdates where
  email : Option String
  name : Option String
  role : Option String
  isActive : Option Bool
  lastLogin : Option (Option Nat)
  stats : Option Stats
deriving DecidableEq

def noUpdates : UserUpdates :=
  { email := none, name := none, role := none, isActive := none,
    lastLogin := none, stats := none }

/-- The spread merge `{ ...user, ...updates }` (line 532). -/
def mergeUser (u : StoredUser) (up : UserUpdates) : StoredUser :=
  { u with
    email := up.email.getD u.email,
    name := up.name.getD u.name,
    role := up.role.getD u.role,
    isActive := up.isActive.getD u.isActive,
    lastLogin := up.lastLogin.getD u.lastLogin,
    stats := up.stats.getD u.stats }

/-- Delete an identifier from a role bucket if that bucket exists — the
`const oldRoleSet = this.roleIndex.get(...); if (oldRoleSet)
oldRoleSet.delete(id)` step shared by `updateUserRole`, the role branch
of `updateUser`, and `deleteUser`. -/
def delFromRole (ri : List (String × List Nat)) (oldRole : String) (id : Nat) :
    List (String × List Nat) :=
  match mapGet ri oldRole with
  | some s => mapSet ri oldRole (setDelete s id)
  | none => ri

def moveRole (ri : List (String × List Nat)) (id : Nat) (oldRole newRole : String) :
    List (String × List Nat) :=
  let ri₁ := delFromRole ri oldRole id
  mapSet ri₁ newRole (setAdd ((mapGet ri₁ newRole).getD []) id)

/-- The tail of `updateUser` after the email branch (lines 519-537): the
role-change branch followed by storing the spread-merged record. -/
def updateUserFinish (db₁ : DB) (id : Nat) (user : StoredUser)
    (up : UserUpdates) : DB :=
  let db₂ : DB :=
    match up.role with
    | some r =>
      if r ≠ "" ∧ r ≠ user.role then
        { db₁ with roleIndex := moveRole db₁.roleIndex id user.role r }
      else db₁
    | none => db₁
  { db₂ with users := mapSet db₂.users id (mergeUser user up) }

/-- `updateUser(id, updates)` (lines 503-538). The email branch guards on
JavaScript truthiness (`updates.email && updates.email !== user.email`),
throws `Email already exists` when the normalized new email is already
indexed (before any mutation), otherwise moves the index entry; the role
branch moves the identifier between buckets; then the spread-merged
record is stored and persisted. -/
def updateUser (db : DB) (id : Nat) (up : UserUpdates) :
    Except String (Option User) × DB :=
  match mapGet db.users id with
  | none => (Except.ok none, db)
  | some user =>
    let emailStep : Except String DB :=
      match up.email with
      | some e =>
        if e ≠ "" ∧ e ≠ user.email then
          let newEmail := normalizeEmail e
          if mapHas db.emailIndex newEmail then
            Except.error "Email already exists"
          else
            Except.ok { db with
              emailIndex := mapSet (mapDelete db.emailIndex user.email)
                newEmail id }
        else Except.ok db
      | none => Except.ok db
    match emailStep with
    | Except.error msg => (Except.error msg, db)
    | Except.ok db₁ =>
      (Except.ok (some (stripPassword (mergeUser user up))),
        updateUserFinish db₁ id user up)

/-- `updateUserRole(userId, newRole)` (lines 383-405). -/
def updateUserRole (db : DB) (id : Nat) (newRole : String) : Bool × DB :=
  match mapGet db.users id with
  | none => (false, db)
  | some user =>
    (true, { db with
      roleIndex := moveRole db.roleIndex id user.role newRole,
      users := mapSet db.users id { user with role := newRole } })

/-- `deactivateUser(userId)` (lines 407-415). -/
def deactivateUser (db : DB) (id : Nat) : Bool × DB :=
  match mapGet db.users id with
  | none => (false, db)
  | some user =>
    (true, { db with users := mapSet db.users id { user with isActive := false } })

/-- `activateUser(userId)` (lines 417-425). -/
def activateUser (db : DB) (id : Nat) : Bool × DB :=
  match mapGet db.users id with
  | none => (false, db)
  | some user =>
    (true, { db with users := mapSet db.users id { user with isActive := true } })

/-- `updateLastLogin(id)` (lines 540-547). -/
def updateLastLogin (db : DB) (id : Nat) (now : Nat) : DB :=
  match mapGet db.users id with
  | none => db
  | some user =>
    { db with users := mapSet db.users id { user with lastLogin := some now } }

/-- The name-token part of the removal loop of `deleteUser`
(lines 572-581): delete the identifier from the bucket of one token,
pruning the bucket if it becomes empty. -/
def delTokenStep (id : Nat) (ni : List (String × List Nat))
    (token : String) : List (String × List Nat) :=
  match mapGet ni token with
  | some s =>
    let s' := setDelete s id
    if s'.length = 0 then mapDelete ni token else mapSet ni token s'
  | none => ni

/-- `deleteUser(id)` (lines 560-586): remove the record's entries from
the email index, its role bucket (if present), and each of its name-token
buckets, pruning a token bucket that becomes empty; then remove the
record itself. -/
def deleteUser (db : DB) (id : Nat) : Bool × DB :=
  match mapGet db.users id with
  | none => (false, db)
  | some user =>
    let ei := mapDelete db.emailIndex user.email
    let ri := delFromRole db.roleIndex user.role id
    let ni := (nameTokens user.name).foldl (delTokenStep id) db.nameIndex
    let db' : DB :=
      { db with
        users := mapDelete db.users id,
        emailIndex := ei,
        roleIndex := ri,
        nameIndex := ni }
    (true, db')

/-- `buildIndexes()` (lines 140-160): clear both derived indexes and
re-insert every record (the loop body is `updateIndexes`). -/
def buildIndexes (db : DB) : DB :=
  db.users.foldl (fun acc p => updateIndexes acc p.1 p.2)
    { db with roleIndex := [], nameIndex := [] }

/-- `findUserById(id)` (lines 496-501). -/
def findUserById (db : DB) (id : Nat) : Option User :=
  (mapGet db.users id).map stripPassword

/-- `findUserByEmail(email)` (lines 490-494): the only read that returns
the password. -/
def findUserByEmail (db : DB) (email : String) : Option StoredUser :=
  match mapGet db.emailIndex (normalizeEmail email) with
  | none => none
  | some id => mapGet db.users id

/-- `getAllUsers()` (lines 549-554). -/
def getAllUsers (db : DB) : List User :=
  db.users.map (fun p => stripPassword p.2)

/-- `getUserCount()` (lines 556-558). -/
def getUserCount (db : DB) : Nat :=
  db.users.length

/-- `getUsersByRole(role)` (lines 364-369). -/
def getUsersByRole (db : DB) (role : String) : List User :=
  (roleBucket db role).filterMap (findUserById db)

/-- `searchUsers(query)` (lines 339-362): lower-case and split the query
on spaces; for each term collect the identifiers of every name-token
bucket whose token contains the term and every email-index entry whose
email contains the term; resolve the identifier set, dropping any that no
longer resolves. -/
def searchUsers (db : DB) (query : String) : List User :=
  let searchTerms := nameTokens query
  let matching := searchTerms.foldl
    (fun acc term =>
      let acc₁ := db.nameIndex.foldl
        (fun a p => if strIncludes p.1 term then p.2.foldl setAdd a else a)
        acc
      db.emailIndex.foldl
        (fun a p => if strIncludes p.1 term then setAdd a p.2 else a)
        acc₁)
    []
  matching.filterMap (findUserById db)

/-- The aggregate view returned by `getStats()` (lines 621-647).
`storageUsed` (a `JSON.stringify` byte count) and the derived
`capacityUsed` percentage are omitted: no claim mentions them and they
depend on the serialization format. -/
structure DBStats where
  totalUsers : Nat
  activeUsers : Nat
  inactiveUsers : Nat
  adminUsers : Nat
  moderatorUsers : Nat
  regularUsers : Nat
  newUsersThisWeek : Nat
  newUsersThisMonth : Nat
  usersWithOrders : Nat
  averageOrderValue : ℚ
  totalRevenue : ℚ
  maxCapacity : Nat
deriving DecidableEq

/-- `getStats()` (lines 621-647). Note that the numerator of
`averageOrderValue` is `users.reduce((sum, u) => sum + (u.stats?.totalSpent
|| 0), 0)` — the total spend of ALL users — while only the denominator is
restricted to users with at least one order (floored at 1). -/
def getStats (db : DB) (now : Nat) : DBStats :=
  let users := getAllUsers db
  let oneWeekAgo := now - 7 * 24 * 60 * 60 * 1000
  let oneMonthAgo := now - 30 * 24 * 60 * 60 * 1000
  let activeUsers := users.filter (fun u => u.isActive)
  let adminUsers := users.filter (fun u => u.role = "admin")
  let moderatorUsers := users.filter (fun u => u.role = "moderator")
  let withOrders := users.filter (fun u => u.stats.totalOrders > 0)
  let revenue := users.foldl (fun sum u => sum + u.stats.totalSpent) 0
  { totalUsers := users.length,
    activeUsers := activeUsers.length,
    inactiveUsers := users.length - activeUsers.length,
    adminUsers := adminUsers.length,
    moderatorUsers := moderatorUsers.length,
    regularUsers := (users.filter (fun u => u.role = "user")).length,
    newUsersThisWeek := (users.filter (fun u => u.createdAt > oneWeekAgo)).length,
    newUsersThisMonth := (users.filter (fun u => u.createdAt > oneMonthAgo)).length,
    usersWithOrders := withOrders.length,
    averageOrderValue := revenue / ((max withOrders.length 1 : Nat) : ℚ),
    totalRevenue := revenue,
    maxCapacity := MAX_USERS }

/-- The `{ imported, errors }` result of `importUsers` (line 486). -/
structure ImportResult where
  imported : Nat
  errors : List String
deriving DecidableEq

/-- `values[k]?.replace(/"/g, '')` — strip every double-quote character. -/
def stripQuotes (s : String) : String :=
  String.mk (s.data.filter (fun c => c ≠ '"'))

/-- The loop of `importUsers` (lines 455-484), iterating `i` from 1 over
the data lines. A line with fewer than 3 comma-separated fields is
skipped silently (`continue` with no error, line 458); a line whose
dequoted email or name is empty gets a `Missing required fields` error; a
line whose email is already indexed (checked on the raw dequoted string)
gets an `already exists` error; otherwise a record is created with the
fixed password `imported123` and the role from field 3 (default `user`),
and an exception from `createUser` (capacity) is caught and recorded as a
per-line error. -/
def importGo (now : Nat) : Nat → List String → DB → Nat → List String →
    ImportResult × DB
  | _, [], db, imported, errors =>
    ({ imported := imported, errors := errors }, db)
  | i, line :: rest, db, imported, errors =>
    let values := jsSplit ',' line
    if values.length < 3 then importGo now (i + 1) rest db imported errors
    else
      let email := stripQuotes (values.getD 2 "")
      let name := stripQuotes (values.getD 1 "")
      if email = "" ∨ name = "" then
        importGo now (i + 1) rest db imported
          (errors ++ ["Line " ++ toString (i + 1) ++ ": Missing required fields"])
      else if mapHas db.emailIndex email then
        importGo now (i + 1) rest db imported
          (errors ++
            ["Line " ++ toString (i + 1) ++ ": Email " ++ email ++
              " already exists"])
      else
        match createUser db email name "imported123" (some (values.getD 3 "")) now with
        | (Except.ok _, db') => importGo now (i + 1) rest db' (imported + 1) errors
        | (Except.error msg, db') =>
          importGo now (i + 1) rest db' imported
            (errors ++ ["Line " ++ toString (i + 1) ++ ": " ++ msg])

/-- `importUsers(csvData)` (lines 449-487): split on newlines, skip the
header line (`lines[0]` is read into `headers` but never used), loop from
`i = 1`. -/
def importUsers (db : DB) (csvData : String) (now : Nat) : ImportResult × DB :=
  let lines := jsSplit '\n' csvData
  importGo now 1 (lines.drop 1) db 0 []

/-! ## Backup keyspace (`createBackup` / `cleanupOldBackups`,
lines 172-200). The backup keyspace is the set of `localStorage` keys
starting with `gearupsports_backup_`, embedded as the list of present
keys in insertion order (the rotation logic only enumerates, sorts and
deletes keys; the snapshot payloads play no role in it). -/

def backupKey (t : Nat) : String :=
  "gearupsports_backup_" ++ toString t

/-- `localStorage.setItem(backupKey, ...)`: overwriting an existing key
leaves the key set unchanged, a new key is appended. -/
def addBackupKey (ks : List String) (k : String) : List String :=
  if k ∈ ks then ks else ks ++ [k]

/-- JavaScript string comparison on character lists (UTF-16 code-unit
order, which on the ASCII backup keys is codepoint order) — the default
comparator of `Array.prototype.sort`. -/
def ltChars : List Char → List Char → Bool
  | [], [] => false
  | [], _ :: _ => true
  | _ :: _, [] => false
  | a :: as, b :: bs =>
    if a < b then true else if b < a then false else ltChars as bs

/-- Insert a key into a descending-sorted key list. -/
def insertDesc (x : String) : List String → List String
  | [] => [x]
  | y :: ys =>
    if ltChars x.data y.data then y :: insertDesc x ys else x :: y :: ys

/-- `keys.sort().reverse()` (lines 191-194): on the duplicate-free key
sets `localStorage` yields, ascending lexicographic sort followed by
reversal is exactly a descending lexicographic sort. -/
def sortKeysDesc : List String → List String
  | [] => []
  | x :: xs => insertDesc x (sortKeysDesc xs)

/-- `cleanupOldBackups()` (lines 190-200): enumerate the backup keys,
`.sort().reverse()` (descending lexicographic order), and remove every
key from position 3 onward (`slice(3)`); the keys kept are those among
the first 3 of the descending order, surviving in their original
keyspace order. -/
def cleanupOldBackups (ks : List String) : List String :=
  let keep := (sortKeysDesc ks).take 3
  ks.filter (fun k => k ∈ keep)

/-- `createBackup()` (lines 172-188) at clock value `t`: store a snapshot
under `gearupsports_backup_${Date.now()}` and rotate. -/
def createBackup (ks : List String) (t : Nat) : List String :=
  cleanupOldBackups (addBackupKey ks (backupKey t))

/-- A sequence of timed snapshot cycles of the backup scheduler. -/
def runBackups (ks : List String) (ts : List Nat) : List String :=
  ts.foldl createBackup ks

/-! ## Sequences of mutating operations -/

/-- One mutating store operation, with the clock value passed explicitly
where the source reads `Date.now()`. -/
inductive Op where
  | create (email name password : String) (role : Option String) (now : Nat)
  | update (id : Nat) (up : UserUpdates)
  | delete (id : Nat)
  | setRole (id : Nat) (role : String)
  | deactivate (id : Nat)
  | activate (id : Nat)
  | touch (id : Nat) (now : Nat)
deriving DecidableEq

/-- The state after an operation; a thrown error (capacity, email
conflict) leaves the state as it was at the throw, which in the source is
before any mutation. -/
def applyOp (db : DB) : Op → DB
  | Op.create e n p r now => (createUser db e n p r now).2
  | Op.update id up => (updateUser db id up).2
  | Op.delete id => (deleteUser db id).2
  | Op.setRole id r => (updateUserRole db id r).2
  | Op.deactivate id => (deactivateUser db id).2
  | Op.activate id => (activateUser db id).2
  | Op.touch id now => updateLastLogin db id now

def runOps (db : DB) (ops : List Op) : DB :=
  ops.foldl applyOp db

/-- The caller discipline the source expects of this operation: a create
must not reuse an email already indexed (the "caller checks existence
first" contract — `createUser` itself silently overwrites the entry), and
an update must pass an email that is nonempty and already in normalized
form (the source guards and deletes index entries with the raw string but
stores and inserts the normalized one). -/
def emailSafeOp (db : DB) : Op → Bool
  | Op.create e _ _ _ _ => ! mapHas db.emailIndex (normalizeEmail e)
  | Op.update _ up =>
    match up.email with
    | none => true
    | some e => decide (¬ e = "") && decide (normalizeEmail e = e)
  | _ => true

def emailSafeTrace : DB → List Op → Bool
  | _, [] => true
  | db, op :: rest => emailSafeOp db op && emailSafeTrace (applyOp db op) rest

/-- The operation is not a name-carrying update (`updateUser` does not
refresh the name-token index when the name changes). -/
def nameUpdateFree : Op → Bool
  | Op.update _ up => up.name.isNone
  | _ => true

/-- No operation of the trace updates a record's name through
`updateUser`. -/
def noNameUpdates (ops : List Op) : Bool :=
  ops.all nameUpdateFree

def mapKeys {κ α : Type} (m : List (κ × α)) : List κ :=
  m.map Prod.fst

/-! ## Store invariants -/

/-- All identifiers in the primary table were produced by the generator:
they are below the `nextId` counter. -/
def freshIds (users : List (Nat × StoredUser)) (nextId : Nat) : Prop :=
  ∀ id u, mapGet users id = some u → id < nextId

/-- The role index partitions consistently with the primary table: an
identifier sits in a role's bucket exactly when its record carries that
role. -/
def roleAgree (users : List (Nat × StoredUser))
    (ri : List (String × List Nat)) : Prop :=
  ∀ r y, y ∈ (mapGet ri r).getD [] ↔
    ∃ u, mapGet users y = some u ∧ u.role = r

/-- The name-token index agrees with the primary table: an identifier
sits in a token's bucket exactly when the token occurs in its record's
tokenized name. -/
def nameAgree (users : List (Nat × StoredUser))
    (ni : List (String × List Nat)) : Prop :=
  ∀ t y, y ∈ (mapGet ni t).getD [] ↔
    ∃ u, mapGet users y = some u ∧ t ∈ nameTokens u.name

/-- Every record is reachable from the name-token index (possibly under
stale tokens after a name change). -/
def covered (users : List (Nat × StoredUser))
    (ni : List (String × List Nat)) : Prop :=
  ∀ id u, mapGet users id = some u → ∃ t, id ∈ (mapGet ni t).getD []

/-- The two directions of email-index consistency from the claim: every
index entry resolves to a record whose normalized email is the key, and
every record's normalized email indexes back to its own identifier. -/
def emailAgree (users : List (Nat × StoredUser))
    (ei : List (String × Nat)) : Prop :=
  (∀ e id, mapGet ei e = some id →
    ∃ u, mapGet users id = some u ∧ normalizeEmail u.email = e) ∧
  (∀ id u, mapGet users id = some u →
    mapGet ei (normalizeEmail u.email) = some id)

/-- Every stored email is in normalized form. -/
def storedNorm (users : List (Nat × StoredUser)) : Prop :=
  ∀ id u, mapGet users id = some u → normalizeEmail u.email = u.email

/-- In the source, the `role` field of an update payload has the closed
union type `'user' | 'admin' | 'moderator'`; in this embedding roles are
strings (because `importUsers` can store arbitrary ones), so the
well-typedness of update payloads — the role, when present, is nonempty —
is tracked explicitly. An empty-string role is not expressible in the
TypeScript interface and would trip the falsy guard of the role branch
while still being merged into the record. -/
def typedOp : Op → Bool
  | Op.update _ up =>
    match up.role with
    | some r => decide (¬ r = "")
    | none => true
  | _ => true

def typedOps (ops : List Op) : Bool :=
  ops.all typedOp

/-- One term's hit set: identifiers collected from name-token buckets
whose token contains the term, or email-index entries whose email
contains the term (`searchUsers` inner loops, lines 343-356). -/
def termHit (db : DB) (term : String) (y : Nat) : Prop :=
  (∃ p, p ∈ db.nameIndex ∧ strIncludes p.1 term = true ∧ y ∈ p.2) ∨
    (∃ p, p ∈ db.emailIndex ∧ strIncludes p.1 term = true ∧ p.2 = y)

/-- An identifier matches a query when some lower-cased space-delimited
term of the query hits it (OR semantics across terms). -/
def searchMatch (db : DB) (q : String) (y : Nat) : Prop :=
  ∃ term, term ∈ nameTokens q ∧ termHit db term y

def capacityStubUser : StoredUser :=
  { id := 0, email := "", name := "", password := "", createdAt := 0,
    lastLogin := none, isActive := true, role := "user",
    stats := { totalOrders := 0, totalSpent := 0, loyaltyPoints := 0 } }

/-- A store holding exactly `MAX_USERS` records. -/
def fullDB : DB :=
  { users := (List.range MAX_USERS).map (fun i => (i, capacityStubUser)),
    emailIndex := [], roleIndex := [], nameIndex := [],
    nextId := MAX_USERS }

/-- A concrete two-record store reached by two creations. -/
def conflictDB : DB :=
  runOps emptyDB
    [Op.create "a@x.com" "A B" "p" none 0,
     Op.create "b@y.com" "C D" "p" none 0]

def conflictUA : StoredUser :=
  { id := 0, email := "a@x.com", name := "A B", password := "p",
    createdAt := 0, lastLogin := none, isActive := true, role := "user",
    stats := { totalOrders := 0, totalSpent := 0, loyaltyPoints := 0 } }

def conflictUB : StoredUser :=
  { id := 1, email := "b@y.com", name := "C D", password := "p",
    createdAt := 0, lastLogin := none, isActive := true, role := "user",
    stats := { totalOrders := 0, totalSpent := 0, loyaltyPoints := 0 } }

/-- Descending order between backup keys: the first is not
lexicographically below the second. -/
def keyGe (a b : String) : Prop :=
  ltChars a.data b.data = false

def backupKs3 : List String :=
  [backupKey 1700000000001, backupKey 1700000000002, backupKey 1700000000003]

/-- Modelled from the claim wording of C5: the average spend computed
among only the users with at least one order, with the denominator
floored at 1. This is what the claim asserts `averageOrderValue` to be;
compare `getStats`, whose numerator sums over all users. -/
def averageSpendAmongOrderers (db : DB) : ℚ :=
  let users := getAllUsers db
  let withOrders := users.filter (fun u => u.stats.totalOrders > 0)
  (withOrders.foldl (fun sum u => sum + u.stats.totalSpent) 0) /
    ((max withOrders.length 1 : Nat) : ℚ)

def statsOps : List Op :=
  [Op.create "a@x.com" "A B" "p" none 0,
   Op.create "b@x.com" "C D" "p" none 0,
   Op.update 0
     { email := none, name := none, role := none, isActive := none,
       lastLogin := none,
       stats := some { totalOrders := 0, totalSpent := 100, loyaltyPoints := 0 } },
   Op.update 1
     { email := none, name := none, role := none, isActive := none,
       lastLogin := none,
       stats := some { totalOrders := 1, totalSpent := 50, loyaltyPoints := 0 } }]

def statsDB : DB := runOps emptyDB statsOps

def statsUserA : User :=
  { id := 0, email := "a@x.com", name := "A B", createdAt := 0,
    lastLogin := none, isActive := true, role := "user",
    stats := { totalOrders := 0, totalSpent := 100, loyaltyPoints := 0 } }

def statsUserB : User :=
  { id := 1, email := "b@x.com", name := "C D", createdAt := 0,
    lastLogin := none, isActive := true, role := "user",
    stats := { totalOrders := 1, totalSpent := 50, loyaltyPoints := 0 } }

def tenUserOps : List Op :=
  (List.range 10).map (fun i =>
    Op.create ("u" ++ toString i ++ "@x.com") ("User " ++ toString i) "p" none
      1800000000000)

def tenUserDB : DB := runOps emptyDB tenUserOps

/-- A CSV whose single data line has only two comma-separated fields:
the email field is missing altogether. -/
def shortLineCsv : String := "ID,Name,Email\nid1,\"Bob\""

/-- Header plus three data rows; the middle row has its email field
present but empty. -/
def importCsvInstance : String :=
  "ID,Name,Email,Role\nid1,\"Alice\",alice@x.com,user\nid2,\"Bob\",,user\nid3,\"Carol\",carol@x.com,admin"

/-- Header plus two data rows carrying the same email address. -/
def dupEmailCsv : String :=
  "ID,Name,Email\nid1,\"Alice\",alice@x.com\nid2,\"Alice Two\",alice@x.com"

/-- A store whose email index already holds `x@y.com`. -/
def dupCheckDB : DB :=
  { users := [], emailIndex := [("x@y.com", 0)], roleIndex := [],
    nameIndex := [], nextId := 0 }

/-- Two creates with the same email address. -/
def dupEmailOps : List Op :=
  [Op.create "a@x.com" "A B" "p" none 0, Op.create "a@x.com" "C D" "p" none 0]

/-- Two creates with distinct emails form an email-safe trace. -/
def safeEmailOps : List Op :=
  [Op.create "a@x.com" "A B" "p" none 0, Op.create "b@x.com" "C D" "p" none 0]

/-- A create followed by a role change to `admin`. -/
def roleWitnessOps : List Op :=
  [Op.create "a@x.com" "A B" "p" none 0, Op.setRole 0 "admin"]

/-- A create followed by a name change through `updateUser`. -/
def nameChangeOps : List Op :=
  [Op.create "a@x.com" "Alice Smith" "pw" none 0,
    Op.update 0 { noUpdates with name := some "Bob Jones" }]

/-- A single create, touching both derived indexes. -/
def rebuildWitnessOps : List Op :=
  [Op.create "a@x.com" "Alice Smith" "pw" none 0]

/-- Two records named `Anita Sharma` and `Rohan Sharma`. -/
def sharmaOps : List Op :=
  [Op.create "a@x.com" "Anita Sharma" "p" none 0,
    Op.create "r@y.com" "Rohan Sharma" "p" none 0]

/-- A single create, making the store non-empty. -/
def emptyQueryOps : List Op :=
  [Op.create "a@x.com" "Alice Smith" "pw" none 0]

theorem mapGet_mapSet_self {κ α : Type} [DecidableEq κ] (m : List (κ × α)) (k : κ) (v : α) :
    mapGet (mapSet m k v) k = some v := by
  induction m with
  | nil => simp [mapGet, mapSet]
  | cons p rest ih =>
    by_cases h : p.1 = k
    · simp [mapSet, h, mapGet]
    · simp [mapSet, h, mapGet, ih]

theorem mapGet_mapSet_ne {κ α : Type} [DecidableEq κ] (m : List (κ × α)) (k k' : κ) (v : α)
    (h : k' ≠ k) : mapGet (mapSet m k v) k' = mapGet m k' := by
  have hkk : ¬ k = k' := fun hh => h hh.symm
  induction m with
  | nil => simp [mapGet, mapSet, hkk]
  | cons p rest ih =>
    obtain ⟨pk, pv⟩ := p
    by_cases hp : pk = k
    · subst hp
      simp [mapSet, mapGet, hkk]
    · by_cases hp' : pk = k'
      · simp [mapSet, hp, mapGet, hp', h]
      · simp [mapSet, hp, mapGet, hp', ih]

theorem mapGet_mapDelete_self {κ α : Type} [DecidableEq κ] (m : List (κ × α)) (k : κ) :
    mapGet (mapDelete m k) k = none := by
  induction m with
  | nil => simp [mapGet, mapDelete]
  | cons p rest ih =>
    obtain ⟨pk, pv⟩ := p
    by_cases h : pk = k
    · simpa [mapDelete, List.filter, h] using ih
    · simpa [mapDelete, List.filter, h, mapGet] using ih

theorem mapGet_mapDelete_ne {κ α : Type} [DecidableEq κ] (m : List (κ × α)) (k k' : κ)
    (h : k' ≠ k) : mapGet (mapDelete m k) k' = mapGet m k' := by
  have hkk : ¬ k = k' := fun hh => h hh.symm
  induction m with
  | nil => simp [mapGet, mapDelete]
  | cons p rest ih =>
    obtain ⟨pk, pv⟩ := p
    by_cases hp : pk = k
    · simpa [mapDelete, List.filter_cons, hp, mapGet, hkk] using ih
    · by_cases hp' : pk = k'
      · simp [mapDelete, List.filter_cons, hp, mapGet, hp', h]
      · simpa [mapDelete, List.filter_cons, hp, mapGet, hp'] using ih

theorem mapHas_iff {κ α : Type} [DecidableEq κ] (m : List (κ × α)) (k : κ) :
    mapHas m k = true ↔ ∃ v, mapGet m k = some v := by
  simp [mapHas, Option.isSome_iff_exists]

theorem mapHas_eq_false_iff {κ α : Type} [DecidableEq κ] (m : List (κ × α)) (k : κ) :
    mapHas m k = false ↔ mapGet m k = none := by
  cases hm : mapGet m k <;> simp [mapHas, hm]

theorem mem_setAdd (s : List Nat) (x y : Nat) :
    y ∈ setAdd s x ↔ y ∈ s ∨ y = x := by
  by_cases h : x ∈ s
  · simp only [setAdd, if_pos h]
    constructor
    · exact fun hy => Or.inl hy
    · rintro (hy | rfl) <;> assumption
  · simp [setAdd, if_neg h]

theorem mem_setDelete (s : List Nat) (x y : Nat) :
    y ∈ setDelete s x ↔ y ∈ s ∧ y ≠ x := by
  simp [setDelete]

theorem jsSplitAux_ne_nil (sep : Char) (l acc : List Char) :
    jsSplitAux sep l acc ≠ [] := by
  induction l generalizing acc with
  | nil => simp [jsSplitAux]
  | cons c rest ih =>
    by_cases h : c = sep
    · simp [jsSplitAux, h]
    · simpa [jsSplitAux, h] using ih (c :: acc)

theorem nameTokens_ne_nil (s : String) : nameTokens s ≠ [] :=
  jsSplitAux_ne_nil _ _ _

theorem containsSub_nil (hay : List Char) : containsSub [] hay = true := by
  cases hay <;> simp [containsSub, isPrefixList]

theorem char_toNat_ofNat_valid (n : Nat) (hv : Nat.isValidChar n) :
    (Char.ofNat n).toNat = n := by
  simp [Char.ofNat, hv, Char.toNat, Char.ofNatAux, UInt32.toNat]

theorem char_toLower_eq (c : Char) :
    Char.toLower c =
      if c.toNat ≥ 65 ∧ c.toNat ≤ 90 then Char.ofNat (c.toNat + 32) else c := rfl

theorem char_toLower_toLower (c : Char) :
    Char.toLower (Char.toLower c) = Char.toLower c := by
  rw [char_toLower_eq c]
  by_cases h : c.toNat ≥ 65 ∧ c.toNat ≤ 90
  · rw [if_pos h, char_toLower_eq]
    have hv : Nat.isValidChar (c.toNat + 32) := Or.inl (by omega)
    rw [char_toNat_ofNat_valid _ hv]
    rw [if_neg (by omega)]
  · rw [if_neg h, char_toLower_eq, if_neg h]

theorem lowerChars_idem (l : List Char) :
    lowerChars (lowerChars l) = lowerChars l := by
  simp [lowerChars, List.map_map, Function.comp_def, char_toLower_toLower]

theorem dropWhile_dropWhile {α : Type} (p : α → Bool) (l : List α) :
    (l.dropWhile p).dropWhile p = l.dropWhile p := by
  induction l with
  | nil => simp
  | cons a rest ih =>
    by_cases h : p a
    · simpa [List.dropWhile_cons, h] using ih
    · simp [List.dropWhile_cons, h]

theorem dropWhile_eq_self_of_isPrefix {α : Type} (p : α → Bool) {l₁ l₂ : List α}
    (hpre : l₁ <+: l₂) (h₂ : l₂.dropWhile p = l₂) : l₁.dropWhile p = l₁ := by
  cases l₁ with
  | nil => rfl
  | cons a t =>
    obtain ⟨r, hr⟩ := hpre
    subst hr
    simp only [List.cons_append] at h₂
    rw [List.dropWhile_cons] at h₂ ⊢
    cases hpa : p a with
    | false => simp
    | true =>
      exfalso
      rw [hpa] at h₂
      simp only [if_true] at h₂
      have hsuf : List.dropWhile p (t ++ r) <:+ t ++ r := List.dropWhile_suffix p
      have hlen := hsuf.length_le
      rw [h₂] at hlen
      simp at hlen

theorem trimChars_idem (l : List Char) :
    trimChars (trimChars l) = trimChars l := by
  unfold trimChars
  have hu : (l.dropWhile isSpaceChar).dropWhile isSpaceChar =
      l.dropWhile isSpaceChar := dropWhile_dropWhile _ _
  have hpref :
      ((l.dropWhile isSpaceChar).reverse.dropWhile isSpaceChar).reverse <+:
        l.dropWhile isSpaceChar := by
    have hsuf : (l.dropWhile isSpaceChar).reverse.dropWhile isSpaceChar <:+
        (l.dropWhile isSpaceChar).reverse := List.dropWhile_suffix _
    have := List.reverse_prefix.mpr hsuf
    simpa using this
  have h1 : (((l.dropWhile isSpaceChar).reverse.dropWhile
        isSpaceChar).reverse).dropWhile isSpaceChar =
      ((l.dropWhile isSpaceChar).reverse.dropWhile isSpaceChar).reverse :=
    dropWhile_eq_self_of_isPrefix _ hpref hu
  rw [h1, List.reverse_reverse, dropWhile_dropWhile]

theorem isSpaceChar_toLower (c : Char) :
    isSpaceChar (Char.toLower c) = isSpaceChar c := by
  rw [char_toLower_eq]
  by_cases h : c.toNat ≥ 65 ∧ c.toNat ≤ 90
  · rw [if_pos h]
    have hv : Nat.isValidChar (c.toNat + 32) := Or.inl (by omega)
    have hval : (Char.ofNat (c.toNat + 32)).toNat = c.toNat + 32 :=
      char_toNat_ofNat_valid _ hv
    have h1 : isSpaceChar c = false := by
      simp only [isSpaceChar]
      have hc : c ≠ ' ' ∧ c ≠ '\t' ∧ c ≠ '\n' ∧ c ≠ '\r' := by
        refine ⟨?_, ?_, ?_, ?_⟩ <;>
          (intro hc; subst hc; exact absurd h (by decide))
      simp [hc.1, hc.2.1, hc.2.2.1, hc.2.2.2]
    have h2 : isSpaceChar (Char.ofNat (c.toNat + 32)) = false := by
      simp only [isSpaceChar]
      have hc : Char.ofNat (c.toNat + 32) ≠ ' ' ∧
          Char.ofNat (c.toNat + 32) ≠ '\t' ∧
          Char.ofNat (c.toNat + 32) ≠ '\n' ∧
          Char.ofNat (c.toNat + 32) ≠ '\r' := by
        refine ⟨?_, ?_, ?_, ?_⟩ <;>
          (intro hc
           have h32 := congrArg Char.toNat hc
           rw [hval] at h32
           have hge : 97 ≤ c.toNat + 32 := by omega
           rw [h32] at hge
           exact absurd hge (by decide))
      simp [hc.1, hc.2.1, hc.2.2.1, hc.2.2.2]
    rw [h1, h2]
  · rw [if_neg h]

theorem lowerChars_trimChars (l : List Char) :
    lowerChars (trimChars l) = trimChars (lowerChars l) := by
  have hcomp : (isSpaceChar ∘ Char.toLower) = isSpaceChar := by
    funext c
    exact isSpaceChar_toLower c
  unfold lowerChars trimChars
  rw [List.dropWhile_map, hcomp, ← List.map_reverse, List.dropWhile_map, hcomp,
    List.map_reverse]

theorem normalizeEmail_idem (s : String) :
    normalizeEmail (normalizeEmail s) = normalizeEmail s := by
  simp only [normalizeEmail]
  congr 1
  show trimChars (lowerChars (trimChars (lowerChars s.data))) =
    trimChars (lowerChars s.data)
  rw [lowerChars_trimChars, trimChars_idem, lowerChars_idem]

/-! ## Further map and bucket lemmas -/

theorem mapGet_mapSet {κ α : Type} [DecidableEq κ] (m : List (κ × α)) (k k' : κ)
    (v : α) :
    mapGet (mapSet m k v) k' = if k' = k then some v else mapGet m k' := by
  by_cases h : k' = k
  · subst h
    simp [mapGet_mapSet_self]
  · simp [h, mapGet_mapSet_ne m k k' v h]

theorem mapGet_mapDelete {κ α : Type} [DecidableEq κ] (m : List (κ × α)) (k k' : κ) :
    mapGet (mapDelete m k) k' = if k' = k then none else mapGet m k' := by
  by_cases h : k' = k
  · subst h
    simp [mapGet_mapDelete_self]
  · simp [h, mapGet_mapDelete_ne m k k' h]

theorem mapGet_some_mem {κ α : Type} [DecidableEq κ] {m : List (κ × α)} {k : κ}
    {v : α} (h : mapGet m k = some v) : (k, v) ∈ m := by
  induction m with
  | nil => simp [mapGet] at h
  | cons p rest ih =>
    obtain ⟨pk, pv⟩ := p
    by_cases hp : pk = k
    · subst hp
      simp [mapGet] at h
      simp [h]
    · simp [mapGet, hp] at h
      simp [ih h]

theorem mem_keys_iff_mapGet_isSome {κ α : Type} [DecidableEq κ]
    (m : List (κ × α)) (k : κ) :
    k ∈ mapKeys m ↔ ∃ v, mapGet m k = some v := by
  induction m with
  | nil => simp [mapKeys, mapGet]
  | cons p rest ih =>
    obtain ⟨pk, pv⟩ := p
    have hk : mapKeys ((pk, pv) :: rest) = pk :: mapKeys rest := rfl
    rw [hk, List.mem_cons]
    by_cases hp : pk = k
    · subst hp
      simp [mapGet]
    · have hne : ¬ k = pk := fun hh => hp hh.symm
      simp [hne, mapGet, hp, ih]

theorem mem_keys_of_mapGet_some {κ α : Type} [DecidableEq κ]
    {m : List (κ × α)} {k : κ} {v : α} (h : mapGet m k = some v) :
    k ∈ mapKeys m :=
  (mem_keys_iff_mapGet_isSome m k).mpr ⟨v, h⟩

theorem mapKeys_mapSet {κ α : Type} [DecidableEq κ] (m : List (κ × α)) (k : κ)
    (v : α) :
    mapKeys (mapSet m k v) =
      if k ∈ mapKeys m then mapKeys m else mapKeys m ++ [k] := by
  induction m with
  | nil => simp [mapKeys, mapSet]
  | cons p rest ih =>
    obtain ⟨pk, pv⟩ := p
    show mapKeys (if pk = k then (k, v) :: rest else (pk, pv) :: mapSet rest k v) = _
    by_cases hp : pk = k
    · subst hp
      rw [if_pos rfl]
      have h1 : mapKeys ((pk, v) :: rest) = pk :: mapKeys rest := rfl
      have h2 : mapKeys ((pk, pv) :: rest) = pk :: mapKeys rest := rfl
      rw [h1, h2, if_pos (List.mem_cons_self pk (mapKeys rest))]
    · rw [if_neg hp]
      have h1 : mapKeys ((pk, pv) :: mapSet rest k v) =
          pk :: mapKeys (mapSet rest k v) := rfl
      have h2 : mapKeys ((pk, pv) :: rest) = pk :: mapKeys rest := rfl
      rw [h1, h2, ih]
      by_cases hk : k ∈ mapKeys rest
      · rw [if_pos hk, if_pos (List.mem_cons_of_mem _ hk)]
      · rw [if_neg hk, if_neg, List.cons_append]
        intro hmem
        rcases List.mem_cons.mp hmem with h' | h'
        · exact hp h'.symm
        · exact hk h'

theorem nodup_mapKeys_mapSet {κ α : Type} [DecidableEq κ] {m : List (κ × α)}
    (k : κ) (v : α) (h : (mapKeys m).Nodup) : (mapKeys (mapSet m k v)).Nodup := by
  rw [mapKeys_mapSet]
  by_cases hk : k ∈ mapKeys m
  · simpa [hk] using h
  · simp only [hk, if_false]
    simpa [List.nodup_append] using ⟨h, hk⟩

theorem nodup_mapKeys_mapDelete {κ α : Type} [DecidableEq κ] {m : List (κ × α)}
    (k : κ) (h : (mapKeys m).Nodup) : (mapKeys (mapDelete m k)).Nodup := by
  have hs : List.Sublist (mapDelete m k) m := List.filter_sublist m
  exact (hs.map Prod.fst).nodup h

theorem mapGet_eq_of_mem_nodup {κ α : Type} [DecidableEq κ] {m : List (κ × α)}
    {k : κ} {v : α} (hnd : (mapKeys m).Nodup) (h : (k, v) ∈ m) :
    mapGet m k = some v := by
  induction m with
  | nil => simp at h
  | cons p rest ih =>
    obtain ⟨pk, pv⟩ := p
    have hk : mapKeys ((pk, pv) :: rest) = pk :: mapKeys rest := rfl
    rw [hk, List.nodup_cons] at hnd
    rcases List.mem_cons.mp h with h' | h'
    · have hk1 : k = pk := congrArg Prod.fst h'
      have hv1 : v = pv := congrArg Prod.snd h'
      subst hk1
      subst hv1
      simp [mapGet]
    · by_cases hp : pk = k
      · exfalso
        subst hp
        exact hnd.1 (List.mem_map.mpr ⟨(pk, v), h', rfl⟩)
      · simpa [mapGet, hp] using ih hnd.2 h'

theorem mapGet_mem_iff_nodup {κ α : Type} [DecidableEq κ] {m : List (κ × α)}
    (hnd : (mapKeys m).Nodup) (k : κ) (v : α) :
    mapGet m k = some v ↔ (k, v) ∈ m :=
  ⟨mapGet_some_mem, mapGet_eq_of_mem_nodup hnd⟩

theorem mem_bucket_addTokens (tokens : List String) (uid : Nat)
    (ni : List (String × List Nat)) (t : String) (y : Nat) :
    y ∈ (mapGet (tokens.foldl (addTokenStep uid) ni) t).getD [] ↔
      y ∈ (mapGet ni t).getD [] ∨ (y = uid ∧ t ∈ tokens) := by
  induction tokens generalizing ni with
  | nil => simp
  | cons tok rest ih =>
    rw [List.foldl_cons, ih]
    show _ ∨ _ ↔ _
    rw [show addTokenStep uid ni tok =
      mapSet ni tok (setAdd ((mapGet ni tok).getD []) uid) from rfl]
    by_cases ht : t = tok
    · subst ht
      rw [mapGet_mapSet_self]
      simp only [Option.getD_some, mem_setAdd, List.mem_cons]
      tauto
    · rw [mapGet_mapSet_ne _ _ _ _ ht]
      simp only [List.mem_cons]
      tauto

theorem bucket_delTokenStep (uid : Nat) (ni : List (String × List Nat))
    (tok t : String) :
    (mapGet (delTokenStep uid ni tok) t).getD [] =
      if t = tok then setDelete ((mapGet ni t).getD []) uid
      else (mapGet ni t).getD [] := by
  unfold delTokenStep
  cases hg : mapGet ni tok with
  | none =>
    by_cases ht : t = tok
    · subst ht
      rw [hg]
      simp [setDelete]
    · simp [ht]
  | some s =>
    by_cases ht : t = tok
    · subst ht
      rw [hg]
      simp only
      by_cases hz : (setDelete s uid).length = 0
      · rw [if_pos hz, mapGet_mapDelete_self]
        have : setDelete s uid = [] := List.length_eq_zero.mp hz
        simp [this]
      · rw [if_neg hz, mapGet_mapSet_self]
        rfl
    · simp only
      by_cases hz : (setDelete s uid).length = 0
      · rw [if_pos hz, mapGet_mapDelete_ne _ _ _ ht, if_neg ht]
      · rw [if_neg hz, mapGet_mapSet_ne _ _ _ _ ht, if_neg ht]

theorem mem_bucket_delTokens (tokens : List String) (uid : Nat)
    (ni : List (String × List Nat)) (t : String) (y : Nat) :
    y ∈ (mapGet (tokens.foldl (delTokenStep uid) ni) t).getD [] ↔
      y ∈ (mapGet ni t).getD [] ∧ ¬(y = uid ∧ t ∈ tokens) := by
  induction tokens generalizing ni with
  | nil => simp
  | cons tok rest ih =>
    rw [List.foldl_cons, ih, bucket_delTokenStep]
    by_cases ht : t = tok
    · rw [if_pos ht]
      simp only [mem_setDelete, List.mem_cons]
      tauto
    · rw [if_neg ht]
      simp only [List.mem_cons]
      tauto

theorem mem_moveRole (ri : List (String × List Nat)) (uid : Nat)
    (oldRole newRole r : String) (y : Nat) :
    y ∈ (mapGet (moveRole ri uid oldRole newRole) r).getD [] ↔
      (y ∈ (mapGet ri r).getD [] ∧ ¬(y = uid ∧ r = oldRole)) ∨
        (y = uid ∧ r = newRole) := by
  unfold moveRole
  have h1 : ∀ r' : String,
      (mapGet (delFromRole ri oldRole uid) r').getD [] =
      if r' = oldRole then setDelete ((mapGet ri r').getD []) uid
      else (mapGet ri r').getD [] := by
    intro r'
    unfold delFromRole
    cases hg : mapGet ri oldRole with
    | none =>
      by_cases hr : r' = oldRole
      · subst hr
        rw [hg]
        simp [setDelete]
      · simp [hr]
    | some s =>
      by_cases hr : r' = oldRole
      · subst hr
        rw [mapGet_mapSet_self, hg]
        simp
      · rw [mapGet_mapSet_ne _ _ _ _ hr, if_neg hr]
  simp only
  by_cases hr : r = newRole
  · rw [hr, mapGet_mapSet_self]
    simp only [Option.getD_some, mem_setAdd]
    rw [h1]
    by_cases ho : newRole = oldRole
    · rw [if_pos ho]
      simp only [mem_setDelete]
      constructor
      · rintro (⟨hy, hne⟩ | hy)
        · exact Or.inl ⟨hy, fun hc => hne hc.1⟩
        · exact Or.inr ⟨hy, trivial⟩
      · rintro (⟨hy, hne⟩ | ⟨hy, h2⟩)
        · by_cases hyu : y = uid
          · exact Or.inr hyu
          · exact Or.inl ⟨hy, hyu⟩
        · exact Or.inr hy
    · rw [if_neg ho]
      constructor
      · rintro (hy | hy)
        · exact Or.inl ⟨hy, fun hc => ho hc.2⟩
        · exact Or.inr ⟨hy, trivial⟩
      · rintro (⟨hy, h2⟩ | ⟨hy, h2⟩)
        · exact Or.inl hy
        · exact Or.inr hy
  · rw [mapGet_mapSet_ne _ _ _ _ hr, h1]
    by_cases ho : r = oldRole
    · rw [if_pos ho]
      simp only [mem_setDelete]
      constructor
      · rintro ⟨hy, hne⟩
        exact Or.inl ⟨hy, fun hc => hne hc.1⟩
      · rintro (⟨hy, hne⟩ | ⟨h2, hc⟩)
        · exact ⟨hy, fun hyu => hne ⟨hyu, ho⟩⟩
        · exact absurd hc hr
    · rw [if_neg ho]
      constructor
      · intro hy
        exact Or.inl ⟨hy, fun hc => ho hc.2⟩
      · rintro (⟨hy, h2⟩ | ⟨h2, hc⟩)
        · exact hy
        · exact absurd hc hr

theorem roleBucket_updateIndexes (db : DB) (uid : Nat) (u : StoredUser)
    (r : String) (y : Nat) :
    y ∈ roleBucket (updateIndexes db uid u) r ↔
      y ∈ roleBucket db r ∨ (y = uid ∧ r = u.role) := by
  show y ∈ (mapGet (mapSet db.roleIndex u.role
    (setAdd (roleBucket db u.role) uid)) r).getD [] ↔ _
  by_cases hr : r = u.role
  · rw [hr, mapGet_mapSet_self]
    simp only [Option.getD_some, mem_setAdd, roleBucket]
    tauto
  · rw [mapGet_mapSet_ne _ _ _ _ hr]
    simp only [roleBucket, hr]
    tauto

theorem nameBucket_updateIndexes (db : DB) (uid : Nat) (u : StoredUser)
    (t : String) (y : Nat) :
    y ∈ nameBucket (updateIndexes db uid u) t ↔
      y ∈ nameBucket db t ∨ (y = uid ∧ t ∈ nameTokens u.name) :=
  mem_bucket_addTokens (nameTokens u.name) uid db.nameIndex t y

theorem users_updateIndexes (db : DB) (uid : Nat) (u : StoredUser) :
    (updateIndexes db uid u).users = db.users := rfl

theorem emailIndex_updateIndexes (db : DB) (uid : Nat) (u : StoredUser) :
    (updateIndexes db uid u).emailIndex = db.emailIndex := rfl

theorem users_buildFold (entries : List (Nat × StoredUser)) (acc : DB) :
    (entries.foldl (fun a p => updateIndexes a p.1 p.2) acc).users = acc.users := by
  induction entries generalizing acc with
  | nil => rfl
  | cons q rest ih => rw [List.foldl_cons, ih, users_updateIndexes]

theorem roleBucket_buildFold (entries : List (Nat × StoredUser)) (acc : DB)
    (r : String) (y : Nat) :
    y ∈ roleBucket (entries.foldl (fun a p => updateIndexes a p.1 p.2) acc) r ↔
      y ∈ roleBucket acc r ∨ ∃ p, p ∈ entries ∧ p.1 = y ∧ p.2.role = r := by
  induction entries generalizing acc with
  | nil => simp
  | cons q rest ih =>
    rw [List.foldl_cons, ih, roleBucket_updateIndexes]
    constructor
    · rintro ((hy | hy) | ⟨p, hp, h1, h2⟩)
      · exact Or.inl hy
      · exact Or.inr ⟨q, List.mem_cons_self _ _, hy.1.symm, hy.2.symm⟩
      · exact Or.inr ⟨p, List.mem_cons_of_mem _ hp, h1, h2⟩
    · rintro (hy | ⟨p, hp, h1, h2⟩)
      · exact Or.inl (Or.inl hy)
      · rcases List.mem_cons.mp hp with h' | h'
        · subst h'
          exact Or.inl (Or.inr ⟨h1.symm, h2.symm⟩)
        · exact Or.inr ⟨p, h', h1, h2⟩

theorem nameBucket_buildFold (entries : List (Nat × StoredUser)) (acc : DB)
    (t : String) (y : Nat) :
    y ∈ nameBucket (entries.foldl (fun a p => updateIndexes a p.1 p.2) acc) t ↔
      y ∈ nameBucket acc t ∨
        ∃ p, p ∈ entries ∧ p.1 = y ∧ t ∈ nameTokens p.2.name := by
  induction entries generalizing acc with
  | nil => simp
  | cons q rest ih =>
    rw [List.foldl_cons, ih, nameBucket_updateIndexes]
    constructor
    · rintro ((hy | hy) | ⟨p, hp, h1, h2⟩)
      · exact Or.inl hy
      · exact Or.inr ⟨q, List.mem_cons_self _ _, hy.1.symm, hy.2⟩
      · exact Or.inr ⟨p, List.mem_cons_of_mem _ hp, h1, h2⟩
    · rintro (hy | ⟨p, hp, h1, h2⟩)
      · exact Or.inl (Or.inl hy)
      · rcases List.mem_cons.mp hp with h' | h'
        · subst h'
          exact Or.inl (Or.inr ⟨h1.symm, h2⟩)
        · exact Or.inr ⟨p, h', h1, h2⟩

/-! ## Operation description lemmas -/

theorem applyOp_create_capacity (db : DB) (e n p : String) (r : Option String)
    (now : Nat) (h : db.users.length ≥ MAX_USERS) :
    applyOp db (Op.create e n p r now) = db := by
  simp [applyOp, createUser, h]

theorem applyOp_create_ok (db : DB) (e n p : String) (r : Option String)
    (now : Nat) (h : ¬ db.users.length ≥ MAX_USERS) :
    applyOp db (Op.create e n p r now) =
      updateIndexes
        { db with
          users := mapSet db.users db.nextId (newUserRec db.nextId e n p r now),
          emailIndex := mapSet db.emailIndex
            (normalizeEmail e) db.nextId,
          nextId := db.nextId + 1 }
        db.nextId (newUserRec db.nextId e n p r now) := by
  simp [applyOp, createUser, h, newUserRec]

theorem applyOp_update_none (db : DB) (id : Nat) (up : UserUpdates)
    (h : mapGet db.users id = none) :
    applyOp db (Op.update id up) = db := by
  simp [applyOp, updateUser, h]

theorem applyOp_update_noemail (db : DB) (id : Nat) (up : UserUpdates)
    (user : StoredUser) (h : mapGet db.users id = some user)
    (he : up.email = none) :
    applyOp db (Op.update id up) = updateUserFinish db id user up := by
  simp [applyOp, updateUser, h, he]

theorem applyOp_update_email_skip (db : DB) (id : Nat) (up : UserUpdates)
    (user : StoredUser) (e : String) (h : mapGet db.users id = some user)
    (he : up.email = some e) (hg : ¬ (e ≠ "" ∧ e ≠ user.email)) :
    applyOp db (Op.update id up) = updateUserFinish db id user up := by
  simp only [applyOp, updateUser, h, he]
  rw [if_neg hg]

theorem applyOp_update_email_conflict (db : DB) (id : Nat) (up : UserUpdates)
    (user : StoredUser) (e : String) (h : mapGet db.users id = some user)
    (he : up.email = some e) (hg : e ≠ "" ∧ e ≠ user.email)
    (hhas : mapHas db.emailIndex (normalizeEmail e) = true) :
    applyOp db (Op.update id up) = db := by
  simp only [applyOp, updateUser, h, he]
  rw [if_pos hg, if_pos hhas]

theorem applyOp_update_email_move (db : DB) (id : Nat) (up : UserUpdates)
    (user : StoredUser) (e : String) (h : mapGet db.users id = some user)
    (he : up.email = some e) (hg : e ≠ "" ∧ e ≠ user.email)
    (hhas : mapHas db.emailIndex (normalizeEmail e) = false) :
    applyOp db (Op.update id up) =
      updateUserFinish
        { db with emailIndex :=
            mapSet (mapDelete db.emailIndex user.email) (normalizeEmail e) id }
        id user up := by
  simp only [applyOp, updateUser, h, he]
  rw [if_pos hg, if_neg (by simp [hhas])]

theorem applyOp_delete_none (db : DB) (id : Nat)
    (h : mapGet db.users id = none) :
    applyOp db (Op.delete id) = db := by
  simp [applyOp, deleteUser, h]

theorem applyOp_delete_some (db : DB) (id : Nat) (user : StoredUser)
    (h : mapGet db.users id = some user) :
    applyOp db (Op.delete id) =
      { db with
        users := mapDelete db.users id,
        emailIndex := mapDelete db.emailIndex user.email,
        roleIndex := delFromRole db.roleIndex user.role id,
        nameIndex := (nameTokens user.name).foldl (delTokenStep id) db.nameIndex } := by
  simp [applyOp, deleteUser, h]

theorem applyOp_setRole_none (db : DB) (id : Nat) (r : String)
    (h : mapGet db.users id = none) :
    applyOp db (Op.setRole id r) = db := by
  simp [applyOp, updateUserRole, h]

theorem applyOp_setRole_some (db : DB) (id : Nat) (r : String)
    (user : StoredUser) (h : mapGet db.users id = some user) :
    applyOp db (Op.setRole id r) =
      { db with
        roleIndex := moveRole db.roleIndex id user.role r,
        users := mapSet db.users id { user with role := r } } := by
  simp [applyOp, updateUserRole, h]

theorem applyOp_deactivate_none (db : DB) (id : Nat)
    (h : mapGet db.users id = none) :
    applyOp db (Op.deactivate id) = db := by
  simp [applyOp, deactivateUser, h]

theorem applyOp_deactivate_some (db : DB) (id : Nat) (user : StoredUser)
    (h : mapGet db.users id = some user) :
    applyOp db (Op.deactivate id) =
      { db with users := mapSet db.users id { user with isActive := false } } := by
  simp [applyOp, deactivateUser, h]

theorem applyOp_activate_none (db : DB) (id : Nat)
    (h : mapGet db.users id = none) :
    applyOp db (Op.activate id) = db := by
  simp [applyOp, activateUser, h]

theorem applyOp_activate_some (db : DB) (id : Nat) (user : StoredUser)
    (h : mapGet db.users id = some user) :
    applyOp db (Op.activate id) =
      { db with users := mapSet db.users id { user with isActive := true } } := by
  simp [applyOp, activateUser, h]

theorem applyOp_touch_none (db : DB) (id now : Nat)
    (h : mapGet db.users id = none) :
    applyOp db (Op.touch id now) = db := by
  simp [applyOp, updateLastLogin, h]

theorem applyOp_touch_some (db : DB) (id now : Nat) (user : StoredUser)
    (h : mapGet db.users id = some user) :
    applyOp db (Op.touch id now) =
      { db with users := mapSet db.users id { user with lastLogin := some now } } := by
  simp [applyOp, updateLastLogin, h]

theorem users_updateUserFinish (db₁ : DB) (id : Nat) (user : StoredUser)
    (up : UserUpdates) :
    (updateUserFinish db₁ id user up).users =
      mapSet db₁.users id (mergeUser user up) := by
  unfold updateUserFinish
  cases up.role with
  | none => rfl
  | some r =>
    by_cases hg : r ≠ "" ∧ r ≠ user.role
    · simp only [if_pos hg]
    · simp only [if_neg hg]

theorem emailIndex_updateUserFinish (db₁ : DB) (id : Nat) (user : StoredUser)
    (up : UserUpdates) :
    (updateUserFinish db₁ id user up).emailIndex = db₁.emailIndex := by
  unfold updateUserFinish
  cases up.role with
  | none => rfl
  | some r =>
    by_cases hg : r ≠ "" ∧ r ≠ user.role
    · simp only [if_pos hg]
    · simp only [if_neg hg]

theorem nameIndex_updateUserFinish (db₁ : DB) (id : Nat) (user : StoredUser)
    (up : UserUpdates) :
    (updateUserFinish db₁ id user up).nameIndex = db₁.nameIndex := by
  unfold updateUserFinish
  cases up.role with
  | none => rfl
  | some r =>
    by_cases hg : r ≠ "" ∧ r ≠ user.role
    · simp only [if_pos hg]
    · simp only [if_neg hg]

theorem nextId_updateUserFinish (db₁ : DB) (id : Nat) (user : StoredUser)
    (up : UserUpdates) :
    (updateUserFinish db₁ id user up).nextId = db₁.nextId := by
  unfold updateUserFinish
  cases up.role with
  | none => rfl
  | some r =>
    by_cases hg : r ≠ "" ∧ r ≠ user.role
    · simp only [if_pos hg]
    · simp only [if_neg hg]

theorem roleIndex_updateUserFinish_norole (db₁ : DB) (id : Nat)
    (user : StoredUser) (up : UserUpdates) (hr : up.role = none) :
    (updateUserFinish db₁ id user up).roleIndex = db₁.roleIndex := by
  unfold updateUserFinish
  rw [hr]

theorem roleIndex_updateUserFinish_skip (db₁ : DB) (id : Nat)
    (user : StoredUser) (up : UserUpdates) (r : String) (hr : up.role = some r)
    (hg : ¬ (r ≠ "" ∧ r ≠ user.role)) :
    (updateUserFinish db₁ id user up).roleIndex = db₁.roleIndex := by
  unfold updateUserFinish
  rw [hr]
  simp only [if_neg hg]

theorem roleIndex_updateUserFinish_move (db₁ : DB) (id : Nat)
    (user : StoredUser) (up : UserUpdates) (r : String) (hr : up.role = some r)
    (hg : r ≠ "" ∧ r ≠ user.role) :
    (updateUserFinish db₁ id user up).roleIndex =
      moveRole db₁.roleIndex id user.role r := by
  unfold updateUserFinish
  rw [hr]
  simp only [if_pos hg]

/-! ## Invariant preservation -/

theorem nextId_updateIndexes (db : DB) (uid : Nat) (u : StoredUser) :
    (updateIndexes db uid u).nextId = db.nextId := rfl

theorem freshIds_mapSet_existing {users : List (Nat × StoredUser)} {n id : Nat}
    {user newU : StoredUser} (h : freshIds users n)
    (hex : mapGet users id = some user) :
    freshIds (mapSet users id newU) n := by
  intro y u' hy
  rw [mapGet_mapSet] at hy
  by_cases hid : y = id
  · rw [hid]
    exact h id user hex
  · rw [if_neg hid] at hy
    exact h y u' hy

theorem freshIds_mapDelete {users : List (Nat × StoredUser)} {n id : Nat}
    (h : freshIds users n) : freshIds (mapDelete users id) n := by
  intro y u' hy
  rw [mapGet_mapDelete] at hy
  by_cases hid : y = id
  · rw [if_pos hid] at hy
    cases hy
  · rw [if_neg hid] at hy
    exact h y u' hy

theorem freshIds_applyOp (db : DB) (op : Op)
    (h : freshIds db.users db.nextId) :
    freshIds (applyOp db op).users (applyOp db op).nextId := by
  cases op with
  | create e n p r now =>
    by_cases hc : db.users.length ≥ MAX_USERS
    · rw [applyOp_create_capacity db e n p r now hc]
      exact h
    · rw [applyOp_create_ok db e n p r now hc]
      intro y u' hy
      rw [users_updateIndexes] at hy
      simp only at hy
      rw [nextId_updateIndexes]
      simp only
      rw [mapGet_mapSet] at hy
      by_cases hid : y = db.nextId
      · rw [hid]
        exact Nat.lt_succ_self _
      · rw [if_neg hid] at hy
        exact Nat.lt_succ_of_lt (h y u' hy)
  | update id up =>
    cases hu : mapGet db.users id with
    | none =>
      rw [applyOp_update_none db id up hu]
      exact h
    | some user =>
      cases he : up.email with
      | none =>
        rw [applyOp_update_noemail db id up user hu he]
        rw [show (updateUserFinish db id user up).nextId = db.nextId from
          nextId_updateUserFinish db id user up]
        rw [users_updateUserFinish]
        exact freshIds_mapSet_existing h hu
      | some e =>
        by_cases hg : e ≠ "" ∧ e ≠ user.email
        · cases hhas : mapHas db.emailIndex (normalizeEmail e) with
          | true =>
            rw [applyOp_update_email_conflict db id up user e hu he hg hhas]
            exact h
          | false =>
            rw [applyOp_update_email_move db id up user e hu he hg hhas]
            rw [nextId_updateUserFinish, users_updateUserFinish]
            exact freshIds_mapSet_existing h hu
        · rw [applyOp_update_email_skip db id up user e hu he hg]
          rw [nextId_updateUserFinish, users_updateUserFinish]
          exact freshIds_mapSet_existing h hu
  | delete id =>
    cases hu : mapGet db.users id with
    | none =>
      rw [applyOp_delete_none db id hu]
      exact h
    | some user =>
      rw [applyOp_delete_some db id user hu]
      exact freshIds_mapDelete h
  | setRole id r =>
    cases hu : mapGet db.users id with
    | none =>
      rw [applyOp_setRole_none db id r hu]
      exact h
    | some user =>
      rw [applyOp_setRole_some db id r user hu]
      exact freshIds_mapSet_existing h hu
  | deactivate id =>
    cases hu : mapGet db.users id with
    | none =>
      rw [applyOp_deactivate_none db id hu]
      exact h
    | some user =>
      rw [applyOp_deactivate_some db id user hu]
      exact freshIds_mapSet_existing h hu
  | activate id =>
    cases hu : mapGet db.users id with
    | none =>
      rw [applyOp_activate_none db id hu]
      exact h
    | some user =>
      rw [applyOp_activate_some db id user hu]
      exact freshIds_mapSet_existing h hu
  | touch id now =>
    cases hu : mapGet db.users id with
    | none =>
      rw [applyOp_touch_none db id now hu]
      exact h
    | some user =>
      rw [applyOp_touch_some db id now user hu]
      exact freshIds_mapSet_existing h hu

theorem nodupKeys_applyOp (db : DB) (op : Op)
    (h : (mapKeys db.users).Nodup) :
    (mapKeys (applyOp db op).users).Nodup := by
  cases op with
  | create e n p r now =>
    by_cases hc : db.users.length ≥ MAX_USERS
    · rw [applyOp_create_capacity db e n p r now hc]
      exact h
    · rw [applyOp_create_ok db e n p r now hc]
      rw [users_updateIndexes]
      exact nodup_mapKeys_mapSet _ _ h
  | update id up =>
    cases hu : mapGet db.users id with
    | none =>
      rw [applyOp_update_none db id up hu]
      exact h
    | some user =>
      cases he : up.email with
      | none =>
        rw [applyOp_update_noemail db id up user hu he, users_updateUserFinish]
        exact nodup_mapKeys_mapSet _ _ h
      | some e =>
        by_cases hg : e ≠ "" ∧ e ≠ user.email
        · cases hhas : mapHas db.emailIndex (normalizeEmail e) with
          | true =>
            rw [applyOp_update_email_conflict db id up user e hu he hg hhas]
            exact h
          | false =>
            rw [applyOp_update_email_move db id up user e hu he hg hhas,
              users_updateUserFinish]
            exact nodup_mapKeys_mapSet _ _ h
        · rw [applyOp_update_email_skip db id up user e hu he hg,
            users_updateUserFinish]
          exact nodup_mapKeys_mapSet _ _ h
  | delete id =>
    cases hu : mapGet db.users id with
    | none =>
      rw [applyOp_delete_none db id hu]
      exact h
    | some user =>
      rw [applyOp_delete_some db id user hu]
      exact nodup_mapKeys_mapDelete _ h
  | setRole id r =>
    cases hu : mapGet db.users id with
    | none =>
      rw [applyOp_setRole_none db id r hu]
      exact h
    | some user =>
      rw [applyOp_setRole_some db id r user hu]
      exact nodup_mapKeys_mapSet _ _ h
  | deactivate id =>
    cases hu : mapGet db.users id with
    | none =>
      rw [applyOp_deactivate_none db id hu]
      exact h
    | some user =>
      rw [applyOp_deactivate_some db id user hu]
      exact nodup_mapKeys_mapSet _ _ h
  | activate id =>
    cases hu : mapGet db.users id with
    | none =>
      rw [applyOp_activate_none db id hu]
      exact h
    | some user =>
      rw [applyOp_activate_some db id user hu]
      exact nodup_mapKeys_mapSet _ _ h
  | touch id now =>
    cases hu : mapGet db.users id with
    | none =>
      rw [applyOp_touch_none db id now hu]
      exact h
    | some user =>
      rw [applyOp_touch_some db id now user hu]
      exact nodup_mapKeys_mapSet _ _ h

theorem nameIndex_updateIndexes (db : DB) (uid : Nat) (u : StoredUser) :
    (updateIndexes db uid u).nameIndex =
      (nameTokens u.name).foldl (addTokenStep uid) db.nameIndex := rfl

theorem roleIndex_updateIndexes (db : DB) (uid : Nat) (u : StoredUser) :
    (updateIndexes db uid u).roleIndex =
      mapSet db.roleIndex u.role (setAdd (roleBucket db u.role) uid) := rfl

theorem covered_mapSet_existing {users : List (Nat × StoredUser)}
    {ni : List (String × List Nat)} {id : Nat} {user newU : StoredUser}
    (h : covered users ni) (hex : mapGet users id = some user) :
    covered (mapSet users id newU) ni := by
  intro y u' hy
  rw [mapGet_mapSet] at hy
  by_cases hid : y = id
  · rw [hid]
    exact h id user hex
  · rw [if_neg hid] at hy
    exact h y u' hy

theorem covered_applyOp (db : DB) (op : Op)
    (h : covered db.users db.nameIndex) :
    covered (applyOp db op).users (applyOp db op).nameIndex := by
  cases op with
  | create e n p r now =>
    by_cases hc : db.users.length ≥ MAX_USERS
    · rw [applyOp_create_capacity db e n p r now hc]
      exact h
    · rw [applyOp_create_ok db e n p r now hc]
      intro y u' hy
      rw [users_updateIndexes] at hy
      simp only at hy
      rw [nameIndex_updateIndexes]
      simp only
      rw [mapGet_mapSet] at hy
      by_cases hid : y = db.nextId
      · obtain ⟨t, ts, htok⟩ : ∃ t ts,
            nameTokens (newUserRec db.nextId e n p r now).name = t :: ts := by
          cases hn : nameTokens (newUserRec db.nextId e n p r now).name with
          | nil => exact absurd hn (nameTokens_ne_nil _)
          | cons t ts => exact ⟨t, ts, rfl⟩
        refine ⟨t, ?_⟩
        rw [mem_bucket_addTokens]
        exact Or.inr ⟨hid, by rw [htok]; exact List.mem_cons_self _ _⟩
      · rw [if_neg hid] at hy
        obtain ⟨t, ht⟩ := h y u' hy
        refine ⟨t, ?_⟩
        rw [mem_bucket_addTokens]
        exact Or.inl ht
  | update id up =>
    cases hu : mapGet db.users id with
    | none =>
      rw [applyOp_update_none db id up hu]
      exact h
    | some user =>
      cases he : up.email with
      | none =>
        rw [applyOp_update_noemail db id up user hu he,
          users_updateUserFinish, nameIndex_updateUserFinish]
        exact covered_mapSet_existing h hu
      | some e =>
        by_cases hg : e ≠ "" ∧ e ≠ user.email
        · cases hhas : mapHas db.emailIndex (normalizeEmail e) with
          | true =>
            rw [applyOp_update_email_conflict db id up user e hu he hg hhas]
            exact h
          | false =>
            rw [applyOp_update_email_move db id up user e hu he hg hhas,
              users_updateUserFinish, nameIndex_updateUserFinish]
            exact covered_mapSet_existing h hu
        · rw [applyOp_update_email_skip db id up user e hu he hg,
            users_updateUserFinish, nameIndex_updateUserFinish]
          exact covered_mapSet_existing h hu
  | delete id =>
    cases hu : mapGet db.users id with
    | none =>
      rw [applyOp_delete_none db id hu]
      exact h
    | some user =>
      rw [applyOp_delete_some db id user hu]
      intro y u' hy
      simp only at hy ⊢
      rw [mapGet_mapDelete] at hy
      by_cases hid : y = id
      · rw [if_pos hid] at hy
        cases hy
      · rw [if_neg hid] at hy
        obtain ⟨t, ht⟩ := h y u' hy
        refine ⟨t, ?_⟩
        rw [mem_bucket_delTokens]
        exact ⟨ht, fun hc => hid hc.1⟩
  | setRole id r =>
    cases hu : mapGet db.users id with
    | none =>
      rw [applyOp_setRole_none db id r hu]
      exact h
    | some user =>
      rw [applyOp_setRole_some db id r user hu]
      exact covered_mapSet_existing h hu
  | deactivate id =>
    cases hu : mapGet db.users id with
    | none =>
      rw [applyOp_deactivate_none db id hu]
      exact h
    | some user =>
      rw [applyOp_deactivate_some db id user hu]
      exact covered_mapSet_existing h hu
  | activate id =>
    cases hu : mapGet db.users id with
    | none =>
      rw [applyOp_activate_none db id hu]
      exact h
    | some user =>
      rw [applyOp_activate_some db id user hu]
      exact covered_mapSet_existing h hu
  | touch id now =>
    cases hu : mapGet db.users id with
    | none =>
      rw [applyOp_touch_none db id now hu]
      exact h
    | some user =>
      rw [applyOp_touch_some db id now user hu]
      exact covered_mapSet_existing h hu

theorem exists_user_mapSet_same {users : List (Nat × StoredUser)} {id : Nat}
    {user newU : StoredUser} (hex : mapGet users id = some user)
    (P : StoredUser → Prop) (hP : P newU ↔ P user) (y : Nat) :
    (∃ u, mapGet (mapSet users id newU) y = some u ∧ P u) ↔
      (∃ u, mapGet users y = some u ∧ P u) := by
  simp only [mapGet_mapSet]
  by_cases hy : y = id
  · simp only [if_pos hy]
    constructor
    · rintro ⟨u, hu, hp⟩
      injection hu with hh
      exact ⟨user, hy ▸ hex, hP.mp (hh ▸ hp)⟩
    · rintro ⟨u, hu, hp⟩
      rw [hy, hex] at hu
      injection hu with hh
      exact ⟨newU, rfl, hP.mpr (by rw [hh]; exact hp)⟩
  · simp only [if_neg hy]

theorem exists_user_mapSet {users : List (Nat × StoredUser)} {id : Nat}
    {newU : StoredUser} (P : StoredUser → Prop) (y : Nat) :
    (∃ u, mapGet (mapSet users id newU) y = some u ∧ P u) ↔
      ((y = id ∧ P newU) ∨ (y ≠ id ∧ ∃ u, mapGet users y = some u ∧ P u)) := by
  by_cases hy : y = id
  · subst hy
    simp only [mapGet_mapSet_self]
    constructor
    · rintro ⟨u, hu, hp⟩
      injection hu with hh
      exact Or.inl ⟨by trivial, hh ▸ hp⟩
    · rintro (⟨h1, hp⟩ | ⟨h1, h2⟩)
      · exact ⟨newU, rfl, hp⟩
      · exact absurd (by trivial) h1
  · simp only [mapGet_mapSet_ne _ _ _ _ hy]
    constructor
    · rintro ⟨u, hu, hp⟩
      exact Or.inr ⟨hy, u, hu, hp⟩
    · rintro (⟨h1, hp⟩ | ⟨h1, u, hu, hp⟩)
      · exact absurd h1 hy
      · exact ⟨u, hu, hp⟩

theorem exists_user_mapDelete {users : List (Nat × StoredUser)} {id : Nat}
    (P : StoredUser → Prop) (y : Nat) :
    (∃ u, mapGet (mapDelete users id) y = some u ∧ P u) ↔
      (y ≠ id ∧ ∃ u, mapGet users y = some u ∧ P u) := by
  simp only [mapGet_mapDelete]
  by_cases hy : y = id
  · simp [hy]
  · simp [hy]

theorem exists_user_unique {users : List (Nat × StoredUser)} {id : Nat}
    {user : StoredUser} (hex : mapGet users id = some user)
    (P : StoredUser → Prop) :
    (∃ u, mapGet users id = some u ∧ P u) ↔ P user := by
  constructor
  · rintro ⟨u, hu, hp⟩
    rw [hex] at hu
    injection hu with hh
    rw [hh]
    exact hp
  · intro hp
    exact ⟨user, hex, hp⟩

theorem bucket_delFromRole (ri : List (String × List Nat)) (oldRole : String)
    (uid : Nat) (r : String) :
    (mapGet (delFromRole ri oldRole uid) r).getD [] =
      if r = oldRole then setDelete ((mapGet ri r).getD []) uid
      else (mapGet ri r).getD [] := by
  unfold delFromRole
  cases hg : mapGet ri oldRole with
  | none =>
    by_cases hr : r = oldRole
    · subst hr
      rw [hg]
      simp [setDelete]
    · simp [hr]
  | some s =>
    by_cases hr : r = oldRole
    · subst hr
      rw [mapGet_mapSet_self, hg]
      simp
    · rw [mapGet_mapSet_ne _ _ _ _ hr, if_neg hr]

theorem roleAgree_mapSet_same_role {users : List (Nat × StoredUser)}
    {ri : List (String × List Nat)} {id : Nat} {user newU : StoredUser}
    (h : roleAgree users ri) (hex : mapGet users id = some user)
    (hrole : newU.role = user.role) :
    roleAgree (mapSet users id newU) ri := by
  intro r y
  refine (h r y).trans
    (exists_user_mapSet_same hex (fun u => u.role = r) ?_ y).symm
  show newU.role = r ↔ user.role = r
  rw [hrole]

theorem roleAgree_move {users : List (Nat × StoredUser)}
    {ri : List (String × List Nat)} {id : Nat} {user newU : StoredUser}
    {newRole : String} (h : roleAgree users ri)
    (hex : mapGet users id = some user) (hrole : newU.role = newRole) :
    roleAgree (mapSet users id newU) (moveRole ri id user.role newRole) := by
  intro r y
  rw [mem_moveRole, exists_user_mapSet (fun u => u.role = r) y]
  by_cases hy : y = id
  · subst hy
    rw [show (y ∈ (mapGet ri r).getD []) ↔ user.role = r from
      (h r y).trans (exists_user_unique hex (fun u => u.role = r))]
    constructor
    · rintro (⟨hb, hne⟩ | ⟨h2, hr⟩)
      · exact absurd ⟨rfl, hb.symm⟩ hne
      · refine Or.inl ⟨rfl, ?_⟩
        rw [hrole, hr]
    · rintro (⟨h2, hr⟩ | ⟨hne, h3⟩)
      · refine Or.inr ⟨rfl, ?_⟩
        rw [← hr]
        exact hrole
      · exact absurd rfl hne
  · rw [show (y ∈ (mapGet ri r).getD []) ↔
      (∃ u, mapGet users y = some u ∧ u.role = r) from h r y]
    constructor
    · rintro (⟨hb, h2⟩ | ⟨h2, h3⟩)
      · exact Or.inr ⟨hy, hb⟩
      · exact absurd h2 hy
    · rintro (⟨h2, h3⟩ | ⟨h2, h3⟩)
      · exact absurd h2 hy
      · exact Or.inl ⟨h3, fun hc => hy hc.1⟩

theorem mergeUser_role_none {user : StoredUser} {up : UserUpdates}
    (hr : up.role = none) : (mergeUser user up).role = user.role := by
  simp [mergeUser, hr]

theorem mergeUser_role_some {user : StoredUser} {up : UserUpdates} {r : String}
    (hr : up.role = some r) : (mergeUser user up).role = r := by
  simp [mergeUser, hr]

theorem mergeUser_name_none {user : StoredUser} {up : UserUpdates}
    (hn : up.name = none) : (mergeUser user up).name = user.name := by
  simp [mergeUser, hn]

theorem mergeUser_email_none {user : StoredUser} {up : UserUpdates}
    (he : up.email = none) : (mergeUser user up).email = user.email := by
  simp [mergeUser, he]

theorem mergeUser_email_some {user : StoredUser} {up : UserUpdates} {e : String}
    (he : up.email = some e) : (mergeUser user up).email = e := by
  simp [mergeUser, he]

theorem roleAgree_create {users : List (Nat × StoredUser)}
    {ri : List (String × List Nat)} {nid : Nat} {newU : StoredUser}
    (h : roleAgree users ri) (hfresh : mapGet users nid = none) :
    roleAgree (mapSet users nid newU)
      (mapSet ri newU.role (setAdd ((mapGet ri newU.role).getD []) nid)) := by
  intro r y
  rw [exists_user_mapSet (fun u => u.role = r) y, mapGet_mapSet]
  by_cases hr : r = newU.role
  · rw [hr, if_pos rfl]
    simp only [Option.getD_some, mem_setAdd]
    constructor
    · rintro (hb | hy)
      · obtain ⟨u, hu, hur⟩ := (h newU.role y).mp hb
        have hyn : y ≠ nid := by
          intro hc
          rw [hc, hfresh] at hu
          cases hu
        exact Or.inr ⟨hyn, u, hu, hur⟩
      · exact Or.inl ⟨hy, by trivial⟩
    · rintro (⟨h1, h2⟩ | ⟨h1, u, hu, h3⟩)
      · exact Or.inr h1
      · exact Or.inl ((h newU.role y).mpr ⟨u, hu, h3⟩)
  · rw [if_neg hr]
    constructor
    · intro hb
      obtain ⟨u, hu, hur⟩ := (h r y).mp hb
      have hyn : y ≠ nid := by
        intro hc
        rw [hc, hfresh] at hu
        cases hu
      exact Or.inr ⟨hyn, u, hu, hur⟩
    · rintro (⟨h1, h2⟩ | ⟨h1, u, hu, h3⟩)
      · exact absurd h2 (fun hh => hr hh.symm)
      · exact (h r y).mpr ⟨u, hu, h3⟩

theorem roleAgree_delete {users : List (Nat × StoredUser)}
    {ri : List (String × List Nat)} {id : Nat} {user : StoredUser}
    (h : roleAgree users ri) (hex : mapGet users id = some user) :
    roleAgree (mapDelete users id) (delFromRole ri user.role id) := by
  intro r y
  rw [bucket_delFromRole, exists_user_mapDelete (fun u => u.role = r) y]
  by_cases hr : r = user.role
  · rw [if_pos hr, mem_setDelete]
    constructor
    · rintro ⟨hb, hyne⟩
      exact ⟨hyne, (h r y).mp hb⟩
    · rintro ⟨hyne, hex2⟩
      exact ⟨(h r y).mpr hex2, hyne⟩
  · rw [if_neg hr]
    constructor
    · intro hb
      obtain ⟨u, hu, hur⟩ := (h r y).mp hb
      have hyne : y ≠ id := by
        intro hc
        rw [hc, hex] at hu
        injection hu with hh
        exact hr (by rw [← hur, hh])
      exact ⟨hyne, u, hu, hur⟩
    · rintro ⟨hyne, hex2⟩
      exact (h r y).mpr hex2

theorem fresh_lookup_none {db : DB} (hF : freshIds db.users db.nextId) :
    mapGet db.users db.nextId = none := by
  cases hn : mapGet db.users db.nextId with
  | none => rfl
  | some u => exact absurd (hF _ _ hn) (lt_irrefl _)

theorem typedOp_update {id : Nat} {up : UserUpdates}
    (h : typedOp (Op.update id up) = true) :
    match up.role with
    | some r => r ≠ ""
    | none => True := by
  cases hr : up.role with
  | none => exact trivial
  | some rr =>
    show rr ≠ ""
    simp only [typedOp, hr] at h
    simpa using h

theorem roleAgree_updateUserFinish (db₁ : DB) (id : Nat) (user : StoredUser)
    (up : UserUpdates) (h : roleAgree db₁.users db₁.roleIndex)
    (hex : mapGet db₁.users id = some user)
    (htyped : match up.role with
      | some r => r ≠ ""
      | none => True) :
    roleAgree (updateUserFinish db₁ id user up).users
      (updateUserFinish db₁ id user up).roleIndex := by
  rw [users_updateUserFinish]
  cases hr : up.role with
  | none =>
    rw [roleIndex_updateUserFinish_norole db₁ id user up hr]
    exact roleAgree_mapSet_same_role h hex (mergeUser_role_none hr)
  | some rr =>
    rw [hr] at htyped
    by_cases hg : rr ≠ "" ∧ rr ≠ user.role
    · rw [roleIndex_updateUserFinish_move db₁ id user up rr hr hg]
      exact roleAgree_move h hex (mergeUser_role_some hr)
    · rw [roleIndex_updateUserFinish_skip db₁ id user up rr hr hg]
      have heq : rr = user.role := by
        by_cases h2 : rr = user.role
        · exact h2
        · exact absurd ⟨htyped, h2⟩ hg
      refine roleAgree_mapSet_same_role h hex ?_
      rw [mergeUser_role_some hr, heq]

theorem roleAgree_applyOp (db : DB) (op : Op)
    (hF : freshIds db.users db.nextId)
    (h : roleAgree db.users db.roleIndex) (htyped : typedOp op = true) :
    roleAgree (applyOp db op).users (applyOp db op).roleIndex := by
  cases op with
  | create e n p r now =>
    by_cases hc : db.users.length ≥ MAX_USERS
    · rw [applyOp_create_capacity db e n p r now hc]
      exact h
    · rw [applyOp_create_ok db e n p r now hc]
      rw [users_updateIndexes, roleIndex_updateIndexes]
      exact roleAgree_create h (fresh_lookup_none hF)
  | update id up =>
    have ht := typedOp_update htyped
    cases hu : mapGet db.users id with
    | none =>
      rw [applyOp_update_none db id up hu]
      exact h
    | some user =>
      cases he : up.email with
      | none =>
        rw [applyOp_update_noemail db id up user hu he]
        exact roleAgree_updateUserFinish db id user up h hu ht
      | some e =>
        by_cases hg : e ≠ "" ∧ e ≠ user.email
        · cases hhas : mapHas db.emailIndex (normalizeEmail e) with
          | true =>
            rw [applyOp_update_email_conflict db id up user e hu he hg hhas]
            exact h
          | false =>
            rw [applyOp_update_email_move db id up user e hu he hg hhas]
            exact roleAgree_updateUserFinish _ id user up h hu ht
        · rw [applyOp_update_email_skip db id up user e hu he hg]
          exact roleAgree_updateUserFinish db id user up h hu ht
  | delete id =>
    cases hu : mapGet db.users id with
    | none =>
      rw [applyOp_delete_none db id hu]
      exact h
    | some user =>
      rw [applyOp_delete_some db id user hu]
      exact roleAgree_delete h hu
  | setRole id r =>
    cases hu : mapGet db.users id with
    | none =>
      rw [applyOp_setRole_none db id r hu]
      exact h
    | some user =>
      rw [applyOp_setRole_some db id r user hu]
      exact roleAgree_move h hu rfl
  | deactivate id =>
    cases hu : mapGet db.users id with
    | none =>
      rw [applyOp_deactivate_none db id hu]
      exact h
    | some user =>
      rw [applyOp_deactivate_some db id user hu]
      exact roleAgree_mapSet_same_role h hu rfl
  | activate id =>
    cases hu : mapGet db.users id with
    | none =>
      rw [applyOp_activate_none db id hu]
      exact h
    | some user =>
      rw [applyOp_activate_some db id user hu]
      exact roleAgree_mapSet_same_role h hu rfl
  | touch id now =>
    cases hu : mapGet db.users id with
    | none =>
      rw [applyOp_touch_none db id now hu]
      exact h
    | some user =>
      rw [applyOp_touch_some db id now user hu]
      exact roleAgree_mapSet_same_role h hu rfl

theorem nameAgree_mapSet_same_name {users : List (Nat × StoredUser)}
    {ni : List (String × List Nat)} {id : Nat} {user newU : StoredUser}
    (h : nameAgree users ni) (hex : mapGet users id = some user)
    (hname : newU.name = user.name) :
    nameAgree (mapSet users id newU) ni := by
  intro t y
  refine (h t y).trans
    (exists_user_mapSet_same hex (fun u => t ∈ nameTokens u.name) ?_ y).symm
  show t ∈ nameTokens newU.name ↔ t ∈ nameTokens user.name
  rw [hname]

theorem nameAgree_create {users : List (Nat × StoredUser)}
    {ni : List (String × List Nat)} {nid : Nat} {newU : StoredUser}
    (h : nameAgree users ni) (hfresh : mapGet users nid = none) :
    nameAgree (mapSet users nid newU)
      ((nameTokens newU.name).foldl (addTokenStep nid) ni) := by
  intro t y
  rw [mem_bucket_addTokens,
    exists_user_mapSet (fun u => t ∈ nameTokens u.name) y]
  constructor
  · rintro (hb | ⟨hy, htok⟩)
    · obtain ⟨u, hu, hut⟩ := (h t y).mp hb
      have hyn : y ≠ nid := by
        intro hc
        rw [hc, hfresh] at hu
        cases hu
      exact Or.inr ⟨hyn, u, hu, hut⟩
    · exact Or.inl ⟨hy, htok⟩
  · rintro (⟨hy, htok⟩ | ⟨hy, u, hu, hut⟩)
    · exact Or.inr ⟨hy, htok⟩
    · exact Or.inl ((h t y).mpr ⟨u, hu, hut⟩)

theorem nameAgree_delete {users : List (Nat × StoredUser)}
    {ni : List (String × List Nat)} {id : Nat} {user : StoredUser}
    (h : nameAgree users ni) (hex : mapGet users id = some user) :
    nameAgree (mapDelete users id)
      ((nameTokens user.name).foldl (delTokenStep id) ni) := by
  intro t y
  rw [mem_bucket_delTokens,
    exists_user_mapDelete (fun u => t ∈ nameTokens u.name) y]
  constructor
  · rintro ⟨hb, hne⟩
    obtain ⟨u, hu, hut⟩ := (h t y).mp hb
    have hyne : y ≠ id := by
      intro hc
      rw [hc, hex] at hu
      injection hu with hh
      exact hne ⟨hc, by rw [hh]; exact hut⟩
    exact ⟨hyne, u, hu, hut⟩
  · rintro ⟨hyne, u, hu, hut⟩
    exact ⟨(h t y).mpr ⟨u, hu, hut⟩, fun hc => hyne hc.1⟩

theorem nameAgree_updateUserFinish (db₁ : DB) (id : Nat) (user : StoredUser)
    (up : UserUpdates) (h : nameAgree db₁.users db₁.nameIndex)
    (hex : mapGet db₁.users id = some user) (hn : up.name = none) :
    nameAgree (updateUserFinish db₁ id user up).users
      (updateUserFinish db₁ id user up).nameIndex := by
  rw [users_updateUserFinish, nameIndex_updateUserFinish]
  exact nameAgree_mapSet_same_name h hex (mergeUser_name_none hn)

theorem nameAgree_applyOp (db : DB) (op : Op)
    (hF : freshIds db.users db.nextId)
    (h : nameAgree db.users db.nameIndex) (hfree : nameUpdateFree op = true) :
    nameAgree (applyOp db op).users (applyOp db op).nameIndex := by
  cases op with
  | create e n p r now =>
    by_cases hc : db.users.length ≥ MAX_USERS
    · rw [applyOp_create_capacity db e n p r now hc]
      exact h
    · rw [applyOp_create_ok db e n p r now hc]
      rw [users_updateIndexes, nameIndex_updateIndexes]
      exact nameAgree_create h (fresh_lookup_none hF)
  | update id up =>
    have hn : up.name = none := by
      simp only [nameUpdateFree] at hfree
      exact Option.isNone_iff_eq_none.mp hfree
    cases hu : mapGet db.users id with
    | none =>
      rw [applyOp_update_none db id up hu]
      exact h
    | some user =>
      cases he : up.email with
      | none =>
        rw [applyOp_update_noemail db id up user hu he]
        exact nameAgree_updateUserFinish db id user up h hu hn
      | some e =>
        by_cases hg : e ≠ "" ∧ e ≠ user.email
        · cases hhas : mapHas db.emailIndex (normalizeEmail e) with
          | true =>
            rw [applyOp_update_email_conflict db id up user e hu he hg hhas]
            exact h
          | false =>
            rw [applyOp_update_email_move db id up user e hu he hg hhas]
            exact nameAgree_updateUserFinish _ id user up h hu hn
        · rw [applyOp_update_email_skip db id up user e hu he hg]
          exact nameAgree_updateUserFinish db id user up h hu hn
  | delete id =>
    cases hu : mapGet db.users id with
    | none =>
      rw [applyOp_delete_none db id hu]
      exact h
    | some user =>
      rw [applyOp_delete_some db id user hu]
      exact nameAgree_delete h hu
  | setRole id r =>
    cases hu : mapGet db.users id with
    | none =>
      rw [applyOp_setRole_none db id r hu]
      exact h
    | some user =>
      rw [applyOp_setRole_some db id r user hu]
      exact nameAgree_mapSet_same_name h hu rfl
  | deactivate id =>
    cases hu : mapGet db.users id with
    | none =>
      rw [applyOp_deactivate_none db id hu]
      exact h
    | some user =>
      rw [applyOp_deactivate_some db id user hu]
      exact nameAgree_mapSet_same_name h hu rfl
  | activate id =>
    cases hu : mapGet db.users id with
    | none =>
      rw [applyOp_activate_none db id hu]
      exact h
    | some user =>
      rw [applyOp_activate_some db id user hu]
      exact nameAgree_mapSet_same_name h hu rfl
  | touch id now =>
    cases hu : mapGet db.users id with
    | none =>
      rw [applyOp_touch_none db id now hu]
      exact h
    | some user =>
      rw [applyOp_touch_some db id now user hu]
      exact nameAgree_mapSet_same_name h hu rfl

theorem storedNorm_mapSet_norm {users : List (Nat × StoredUser)} {id : Nat}
    {newU : StoredUser} (h : storedNorm users)
    (hnorm : normalizeEmail newU.email = newU.email) :
    storedNorm (mapSet users id newU) := by
  intro y u' hy
  rw [mapGet_mapSet] at hy
  by_cases hid : y = id
  · rw [if_pos hid] at hy
    injection hy with hh
    rw [← hh]
    exact hnorm
  · rw [if_neg hid] at hy
    exact h y u' hy

theorem storedNorm_mapDelete {users : List (Nat × StoredUser)} {id : Nat}
    (h : storedNorm users) : storedNorm (mapDelete users id) := by
  intro y u' hy
  rw [mapGet_mapDelete] at hy
  by_cases hid : y = id
  · rw [if_pos hid] at hy
    cases hy
  · rw [if_neg hid] at hy
    exact h y u' hy

theorem emailAgree_mapSet_same_email {users : List (Nat × StoredUser)}
    {ei : List (String × Nat)} {id : Nat} {user newU : StoredUser}
    (h : emailAgree users ei) (hex : mapGet users id = some user)
    (hemail : newU.email = user.email) :
    emailAgree (mapSet users id newU) ei := by
  constructor
  · intro e y hey
    obtain ⟨u, hu, hue⟩ := h.1 e y hey
    rw [mapGet_mapSet]
    by_cases hy : y = id
    · refine ⟨newU, if_pos hy, ?_⟩
      rw [hy, hex] at hu
      injection hu with hh
      rw [hemail, hh]
      exact hue
    · exact ⟨u, by rw [if_neg hy]; exact hu, hue⟩
  · intro y u' hy
    rw [mapGet_mapSet] at hy
    by_cases hid : y = id
    · rw [if_pos hid] at hy
      injection hy with hh
      rw [← hh, hemail, hid]
      exact h.2 id user hex
    · rw [if_neg hid] at hy
      exact h.2 y u' hy

theorem emailAgree_create {users : List (Nat × StoredUser)}
    {ei : List (String × Nat)} {nid : Nat} {newU : StoredUser}
    (h : emailAgree users ei) (hfresh : mapGet users nid = none)
    (hnew : mapGet ei newU.email = none)
    (hnorm : normalizeEmail newU.email = newU.email) :
    emailAgree (mapSet users nid newU) (mapSet ei newU.email nid) := by
  constructor
  · intro e y hey
    rw [mapGet_mapSet] at hey
    by_cases he : e = newU.email
    · rw [if_pos he] at hey
      injection hey with hh
      refine ⟨newU, ?_, ?_⟩
      · rw [← hh]
        exact mapGet_mapSet_self users nid newU
      · rw [hnorm, he]
    · rw [if_neg he] at hey
      obtain ⟨u, hu, hue⟩ := h.1 e y hey
      have hyn : y ≠ nid := by
        intro hc
        rw [hc, hfresh] at hu
        cases hu
      exact ⟨u, by rw [mapGet_mapSet_ne _ _ _ _ hyn]; exact hu, hue⟩
  · intro y u' hy
    rw [mapGet_mapSet] at hy
    by_cases hid : y = nid
    · rw [if_pos hid] at hy
      injection hy with hh
      rw [← hh, hnorm, hid]
      exact mapGet_mapSet_self ei newU.email nid
    · rw [if_neg hid] at hy
      have hold := h.2 y u' hy
      have hkey : normalizeEmail u'.email ≠ newU.email := by
        intro hc
        rw [hc, hnew] at hold
        cases hold
      rw [mapGet_mapSet_ne _ _ _ _ hkey]
      exact hold

theorem emailAgree_update_email {users : List (Nat × StoredUser)}
    {ei : List (String × Nat)} {id : Nat} {user newU : StoredUser} {e : String}
    (h : emailAgree users ei) (hS : storedNorm users)
    (hex : mapGet users id = some user)
    (hnorm : normalizeEmail e = e)
    (hnew : mapGet ei (normalizeEmail e) = none)
    (hmail : newU.email = e) :
    emailAgree (mapSet users id newU)
      (mapSet (mapDelete ei user.email) (normalizeEmail e) id) := by
  constructor
  · intro e' y hey
    rw [mapGet_mapSet] at hey
    by_cases he' : e' = normalizeEmail e
    · rw [if_pos he'] at hey
      injection hey with hh
      refine ⟨newU, ?_, ?_⟩
      · rw [← hh]
        exact mapGet_mapSet_self users id newU
      · rw [hmail, he', hnorm]
    · rw [if_neg he'] at hey
      rw [mapGet_mapDelete] at hey
      by_cases hd : e' = user.email
      · rw [if_pos hd] at hey
        cases hey
      · rw [if_neg hd] at hey
        obtain ⟨u, hu, hue⟩ := h.1 e' y hey
        have hyn : y ≠ id := by
          intro hc
          rw [hc, hex] at hu
          injection hu with hh
          apply hd
          rw [← hue, ← hh]
          exact hS id user hex
        exact ⟨u, by rw [mapGet_mapSet_ne _ _ _ _ hyn]; exact hu, hue⟩
  · intro y u' hy
    rw [mapGet_mapSet] at hy
    by_cases hid : y = id
    · rw [if_pos hid] at hy
      injection hy with hh
      rw [← hh, hmail, hid]
      rw [show normalizeEmail e = normalizeEmail e from rfl]
      exact mapGet_mapSet_self _ _ _
    · rw [if_neg hid] at hy
      have hold := h.2 y u' hy
      have hk1 : normalizeEmail u'.email ≠ normalizeEmail e := by
        intro hc
        rw [hc, hnew] at hold
        cases hold
      have hk2 : normalizeEmail u'.email ≠ user.email := by
        intro hc
        have huser := h.2 id user hex
        rw [hS id user hex] at huser
        rw [hc] at hold
        rw [hold] at huser
        injection huser with hh
        omega
      rw [mapGet_mapSet_ne _ _ _ _ hk1, mapGet_mapDelete_ne _ _ _ hk2]
      exact hold

theorem emailAgree_delete {users : List (Nat × StoredUser)}
    {ei : List (String × Nat)} {id : Nat} {user : StoredUser}
    (h : emailAgree users ei) (hS : storedNorm users)
    (hex : mapGet users id = some user) :
    emailAgree (mapDelete users id) (mapDelete ei user.email) := by
  constructor
  · intro e' y hey
    rw [mapGet_mapDelete] at hey
    by_cases hd : e' = user.email
    · rw [if_pos hd] at hey
      cases hey
    · rw [if_neg hd] at hey
      obtain ⟨u, hu, hue⟩ := h.1 e' y hey
      have hyn : y ≠ id := by
        intro hc
        rw [hc, hex] at hu
        injection hu with hh
        apply hd
        rw [← hue, ← hh]
        exact hS id user hex
      exact ⟨u, by rw [mapGet_mapDelete_ne _ _ _ hyn]; exact hu, hue⟩
  · intro y u' hy
    rw [mapGet_mapDelete] at hy
    by_cases hid : y = id
    · rw [if_pos hid] at hy
      cases hy
    · rw [if_neg hid] at hy
      have hold := h.2 y u' hy
      have hk : normalizeEmail u'.email ≠ user.email := by
        intro hc
        have huser := h.2 id user hex
        rw [hS id user hex] at huser
        rw [hc] at hold
        rw [hold] at huser
        injection huser with hh
        omega
      rw [mapGet_mapDelete_ne _ _ _ hk]
      exact hold

theorem emailSafeOp_create_none {db : DB} {e n p : String} {r : Option String}
    {now : Nat} (h : emailSafeOp db (Op.create e n p r now) = true) :
    mapGet db.emailIndex (normalizeEmail e) = none := by
  simp only [emailSafeOp, Bool.not_eq_true'] at h
  exact (mapHas_eq_false_iff _ _).mp h

theorem emailSafeOp_update_some {db : DB} {id : Nat} {up : UserUpdates}
    {e : String} (hup : up.email = some e)
    (h : emailSafeOp db (Op.update id up) = true) :
    e ≠ "" ∧ normalizeEmail e = e := by
  simp only [emailSafeOp, hup] at h
  simpa using h

theorem emailInv_applyOp (db : DB) (op : Op)
    (hA : emailAgree db.users db.emailIndex) (hS : storedNorm db.users)
    (hF : freshIds db.users db.nextId) (hsafe : emailSafeOp db op = true) :
    emailAgree (applyOp db op).users (applyOp db op).emailIndex ∧
      storedNorm (applyOp db op).users := by
  cases op with
  | create e n p r now =>
    by_cases hc : db.users.length ≥ MAX_USERS
    · rw [applyOp_create_capacity db e n p r now hc]
      exact ⟨hA, hS⟩
    · rw [applyOp_create_ok db e n p r now hc]
      rw [users_updateIndexes, emailIndex_updateIndexes]
      have hnew : mapGet db.emailIndex (newUserRec db.nextId e n p r now).email =
          none := emailSafeOp_create_none hsafe
      constructor
      · exact emailAgree_create hA (fresh_lookup_none hF) hnew
          (normalizeEmail_idem e)
      · exact storedNorm_mapSet_norm hS (normalizeEmail_idem e)
  | update id up =>
    cases hu : mapGet db.users id with
    | none =>
      rw [applyOp_update_none db id up hu]
      exact ⟨hA, hS⟩
    | some user =>
      cases he : up.email with
      | none =>
        rw [applyOp_update_noemail db id up user hu he,
          users_updateUserFinish, emailIndex_updateUserFinish]
        have hm : (mergeUser user up).email = user.email := mergeUser_email_none he
        refine ⟨emailAgree_mapSet_same_email hA hu hm,
          storedNorm_mapSet_norm hS ?_⟩
        rw [hm]
        exact hS id user hu
      | some e =>
        obtain ⟨hne0, hnorm⟩ := emailSafeOp_update_some he hsafe
        by_cases hg : e ≠ "" ∧ e ≠ user.email
        · cases hhas : mapHas db.emailIndex (normalizeEmail e) with
          | true =>
            rw [applyOp_update_email_conflict db id up user e hu he hg hhas]
            exact ⟨hA, hS⟩
          | false =>
            rw [applyOp_update_email_move db id up user e hu he hg hhas,
              users_updateUserFinish, emailIndex_updateUserFinish]
            have hnew : mapGet db.emailIndex (normalizeEmail e) = none :=
              (mapHas_eq_false_iff _ _).mp hhas
            have hm : (mergeUser user up).email = e := mergeUser_email_some he
            refine ⟨emailAgree_update_email hA hS hu hnorm hnew hm,
              storedNorm_mapSet_norm hS ?_⟩
            rw [hm]
            exact hnorm
        · have heq : e = user.email := by
            by_cases h2 : e = user.email
            · exact h2
            · exact absurd ⟨hne0, h2⟩ hg
          rw [applyOp_update_email_skip db id up user e hu he hg,
            users_updateUserFinish, emailIndex_updateUserFinish]
          have hm : (mergeUser user up).email = user.email := by
            rw [mergeUser_email_some he, heq]
          refine ⟨emailAgree_mapSet_same_email hA hu hm,
            storedNorm_mapSet_norm hS ?_⟩
          rw [hm]
          exact hS id user hu
  | delete id =>
    cases hu : mapGet db.users id with
    | none =>
      rw [applyOp_delete_none db id hu]
      exact ⟨hA, hS⟩
    | some user =>
      rw [applyOp_delete_some db id user hu]
      exact ⟨emailAgree_delete hA hS hu, storedNorm_mapDelete hS⟩
  | setRole id r =>
    cases hu : mapGet db.users id with
    | none =>
      rw [applyOp_setRole_none db id r hu]
      exact ⟨hA, hS⟩
    | some user =>
      rw [applyOp_setRole_some db id r user hu]
      refine ⟨emailAgree_mapSet_same_email hA hu rfl,
        storedNorm_mapSet_norm hS ?_⟩
      exact hS id user hu
  | deactivate id =>
    cases hu : mapGet db.users id with
    | none =>
      rw [applyOp_deactivate_none db id hu]
      exact ⟨hA, hS⟩
    | some user =>
      rw [applyOp_deactivate_some db id user hu]
      refine ⟨emailAgree_mapSet_same_email hA hu rfl,
        storedNorm_mapSet_norm hS ?_⟩
      exact hS id user hu
  | activate id =>
    cases hu : mapGet db.users id with
    | none =>
      rw [applyOp_activate_none db id hu]
      exact ⟨hA, hS⟩
    | some user =>
      rw [applyOp_activate_some db id user hu]
      refine ⟨emailAgree_mapSet_same_email hA hu rfl,
        storedNorm_mapSet_norm hS ?_⟩
      exact hS id user hu
  | touch id now =>
    cases hu : mapGet db.users id with
    | none =>
      rw [applyOp_touch_none db id now hu]
      exact ⟨hA, hS⟩
    | some user =>
      rw [applyOp_touch_some db id now user hu]
      refine ⟨emailAgree_mapSet_same_email hA hu rfl,
        storedNorm_mapSet_norm hS ?_⟩
      exact hS id user hu

/-! ## Trace-level invariants -/

theorem runOps_cons (db : DB) (op : Op) (rest : List Op) :
    runOps db (op :: rest) = runOps (applyOp db op) rest := rfl

theorem freshIds_runOps (ops : List Op) (db : DB)
    (h : freshIds db.users db.nextId) :
    freshIds (runOps db ops).users (runOps db ops).nextId := by
  induction ops generalizing db with
  | nil => exact h
  | cons op rest ih => exact ih (applyOp db op) (freshIds_applyOp db op h)

theorem nodupKeys_runOps (ops : List Op) (db : DB)
    (h : (mapKeys db.users).Nodup) :
    (mapKeys (runOps db ops).users).Nodup := by
  induction ops generalizing db with
  | nil => exact h
  | cons op rest ih => exact ih (applyOp db op) (nodupKeys_applyOp db op h)

theorem covered_runOps (ops : List Op) (db : DB)
    (h : covered db.users db.nameIndex) :
    covered (runOps db ops).users (runOps db ops).nameIndex := by
  induction ops generalizing db with
  | nil => exact h
  | cons op rest ih => exact ih (applyOp db op) (covered_applyOp db op h)

theorem roleAgree_runOps (ops : List Op) (db : DB)
    (hF : freshIds db.users db.nextId)
    (h : roleAgree db.users db.roleIndex) (htyped : typedOps ops = true) :
    roleAgree (runOps db ops).users (runOps db ops).roleIndex := by
  induction ops generalizing db with
  | nil => exact h
  | cons op rest ih =>
    have hop : typedOp op = true ∧ typedOps rest = true := by
      simpa [typedOps] using htyped
    exact ih (applyOp db op) (freshIds_applyOp db op hF)
      (roleAgree_applyOp db op hF h hop.1) hop.2

theorem nameAgree_runOps (ops : List Op) (db : DB)
    (hF : freshIds db.users db.nextId)
    (h : nameAgree db.users db.nameIndex)
    (hfree : noNameUpdates ops = true) :
    nameAgree (runOps db ops).users (runOps db ops).nameIndex := by
  induction ops generalizing db with
  | nil => exact h
  | cons op rest ih =>
    have hop : nameUpdateFree op = true ∧ noNameUpdates rest = true := by
      simpa [noNameUpdates] using hfree
    exact ih (applyOp db op) (freshIds_applyOp db op hF)
      (nameAgree_applyOp db op hF h hop.1) hop.2

theorem emailInv_runOps (ops : List Op) (db : DB)
    (hA : emailAgree db.users db.emailIndex) (hS : storedNorm db.users)
    (hF : freshIds db.users db.nextId)
    (hsafe : emailSafeTrace db ops = true) :
    emailAgree (runOps db ops).users (runOps db ops).emailIndex ∧
      storedNorm (runOps db ops).users := by
  induction ops generalizing db with
  | nil => exact ⟨hA, hS⟩
  | cons op rest ih =>
    have hs : emailSafeOp db op = true ∧
        emailSafeTrace (applyOp db op) rest = true := by
      simpa [emailSafeTrace] using hsafe
    obtain ⟨hA', hS'⟩ := emailInv_applyOp db op hA hS hF hs.1
    exact ih (applyOp db op) hA' hS' (freshIds_applyOp db op hF) hs.2

theorem freshIds_empty : freshIds emptyDB.users emptyDB.nextId := by
  intro y u h
  cases h

theorem nodupKeys_empty : (mapKeys emptyDB.users).Nodup := List.nodup_nil

theorem covered_empty : covered emptyDB.users emptyDB.nameIndex := by
  intro id u h
  cases h

theorem roleAgree_empty : roleAgree emptyDB.users emptyDB.roleIndex := by
  intro r y
  constructor
  · intro h
    cases h
  · rintro ⟨u, hu, h2⟩
    cases hu

theorem nameAgree_empty : nameAgree emptyDB.users emptyDB.nameIndex := by
  intro t y
  constructor
  · intro h
    cases h
  · rintro ⟨u, hu, h2⟩
    cases hu

theorem emailAgree_empty : emailAgree emptyDB.users emptyDB.emailIndex := by
  constructor
  · intro e y h
    cases h
  · intro y u h
    cases h

theorem storedNorm_empty : storedNorm emptyDB.users := by
  intro y u h
  cases h

/-! ## Search characterization -/

theorem mem_foldl_setAdd (ids acc : List Nat) (y : Nat) :
    y ∈ ids.foldl setAdd acc ↔ y ∈ acc ∨ y ∈ ids := by
  induction ids generalizing acc with
  | nil => simp
  | cons i rest ih =>
    rw [List.foldl_cons, ih, mem_setAdd]
    simp only [List.mem_cons]
    tauto

theorem mem_nameFold (ni : List (String × List Nat)) (term : String)
    (acc : List Nat) (y : Nat) :
    y ∈ ni.foldl
        (fun a p => if strIncludes p.1 term then p.2.foldl setAdd a else a)
        acc ↔
      y ∈ acc ∨ ∃ p, p ∈ ni ∧ strIncludes p.1 term = true ∧ y ∈ p.2 := by
  induction ni generalizing acc with
  | nil => simp
  | cons q' rest ih =>
    rw [List.foldl_cons, ih]
    by_cases hq : strIncludes q'.1 term
    · rw [if_pos hq, mem_foldl_setAdd]
      constructor
      · rintro ((hy | hy) | ⟨p, hp, h1, h2⟩)
        · exact Or.inl hy
        · exact Or.inr ⟨q', List.mem_cons_self _ _, hq, hy⟩
        · exact Or.inr ⟨p, List.mem_cons_of_mem _ hp, h1, h2⟩
      · rintro (hy | ⟨p, hp, h1, h2⟩)
        · exact Or.inl (Or.inl hy)
        · rcases List.mem_cons.mp hp with h' | h'
          · exact Or.inl (Or.inr (h' ▸ h2))
          · exact Or.inr ⟨p, h', h1, h2⟩
    · rw [if_neg hq]
      constructor
      · rintro (hy | ⟨p, hp, h1, h2⟩)
        · exact Or.inl hy
        · exact Or.inr ⟨p, List.mem_cons_of_mem _ hp, h1, h2⟩
      · rintro (hy | ⟨p, hp, h1, h2⟩)
        · exact Or.inl hy
        · rcases List.mem_cons.mp hp with h' | h'
          · exact absurd (h' ▸ h1) (by simpa using hq)
          · exact Or.inr ⟨p, h', h1, h2⟩

theorem mem_emailFold (ei : List (String × Nat)) (term : String)
    (acc : List Nat) (y : Nat) :
    y ∈ ei.foldl
        (fun a p => if strIncludes p.1 term then setAdd a p.2 else a)
        acc ↔
      y ∈ acc ∨ ∃ p, p ∈ ei ∧ strIncludes p.1 term = true ∧ p.2 = y := by
  induction ei generalizing acc with
  | nil => simp
  | cons q' rest ih =>
    rw [List.foldl_cons, ih]
    by_cases hq : strIncludes q'.1 term
    · rw [if_pos hq]
      constructor
      · rintro (hy | ⟨p, hp, h1, h2⟩)
        · rcases (mem_setAdd acc q'.2 y).mp hy with hy' | hy'
          · exact Or.inl hy'
          · exact Or.inr ⟨q', List.mem_cons_self _ _, hq, hy'.symm⟩
        · exact Or.inr ⟨p, List.mem_cons_of_mem _ hp, h1, h2⟩
      · rintro (hy | ⟨p, hp, h1, h2⟩)
        · exact Or.inl ((mem_setAdd acc q'.2 y).mpr (Or.inl hy))
        · rcases List.mem_cons.mp hp with h' | h'
          · exact Or.inl ((mem_setAdd acc q'.2 y).mpr (Or.inr (h' ▸ h2).symm))
          · exact Or.inr ⟨p, h', h1, h2⟩
    · rw [if_neg hq]
      constructor
      · rintro (hy | ⟨p, hp, h1, h2⟩)
        · exact Or.inl hy
        · exact Or.inr ⟨p, List.mem_cons_of_mem _ hp, h1, h2⟩
      · rintro (hy | ⟨p, hp, h1, h2⟩)
        · exact Or.inl hy
        · rcases List.mem_cons.mp hp with h' | h'
          · exact absurd (h' ▸ h1) (by simpa using hq)
          · exact Or.inr ⟨p, h', h1, h2⟩

theorem mem_termsFold (db : DB) (terms : List String) (acc : List Nat)
    (y : Nat) :
    y ∈ terms.foldl
        (fun acc term =>
          let acc₁ := db.nameIndex.foldl
            (fun a p => if strIncludes p.1 term then p.2.foldl setAdd a else a)
            acc
          db.emailIndex.foldl
            (fun a p => if strIncludes p.1 term then setAdd a p.2 else a)
            acc₁)
        acc ↔
      y ∈ acc ∨ ∃ term, term ∈ terms ∧ termHit db term y := by
  induction terms generalizing acc with
  | nil => simp
  | cons t rest ih =>
    rw [List.foldl_cons, ih]
    show (y ∈ _ ∨ _) ↔ _
    rw [mem_emailFold, mem_nameFold]
    constructor
    · rintro (((hy | hy) | hy) | ⟨term, ht, hh⟩)
      · exact Or.inl hy
      · exact Or.inr ⟨t, List.mem_cons_self _ _, Or.inl hy⟩
      · exact Or.inr ⟨t, List.mem_cons_self _ _, Or.inr hy⟩
      · exact Or.inr ⟨term, List.mem_cons_of_mem _ ht, hh⟩
    · rintro (hy | ⟨term, ht, hh⟩)
      · exact Or.inl (Or.inl (Or.inl hy))
      · rcases List.mem_cons.mp ht with h' | h'
        · subst h'
          rcases hh with hh | hh
          · exact Or.inl (Or.inl (Or.inr hh))
          · exact Or.inl (Or.inr hh)
        · exact Or.inr ⟨term, h', hh⟩

theorem mem_searchUsers (db : DB) (q : String) (v : User) :
    v ∈ searchUsers db q ↔
      ∃ y, searchMatch db q y ∧ findUserById db y = some v := by
  unfold searchUsers
  rw [List.mem_filterMap]
  constructor
  · rintro ⟨y, hy, hf⟩
    rw [mem_termsFold] at hy
    rcases hy with hy | ⟨term, ht, hh⟩
    · cases hy
    · exact ⟨y, ⟨term, ht, hh⟩, hf⟩
  · rintro ⟨y, ⟨term, ht, hh⟩, hf⟩
    refine ⟨y, ?_, hf⟩
    rw [mem_termsFold]
    exact Or.inr ⟨term, ht, hh⟩

/-! ## Claim theorems -/

/-- C2: for every store whose record count equals the capacity ceiling
(1000), `createUser` fails with the capacity-exceeded error and leaves
the whole store — primary table, email index, role index and name-token
index — unchanged. -/
theorem create_at_capacity_fails_unchanged (db : DB)
    (h : db.users.length = MAX_USERS) (email name password : String)
    (role : Option String) (now : Nat) :
    createUser db email name password role now =
      (Except.error "Maximum user limit reached (1000)", db) := by
  unfold createUser
  rw [if_pos (le_of_eq h.symm)]
  rfl

set_option maxRecDepth 4000 in

/-- C2 witness: the capacity theorem applied to a concrete store of 1000
records. -/
theorem create_at_capacity_fails_unchanged_witness :
    fullDB.users.length = MAX_USERS ∧
      createUser fullDB "new@x.com" "New User" "pw" none 0 =
        (Except.error "Maximum user limit reached (1000)", fullDB) := by
  have hlen : fullDB.users.length = MAX_USERS := by
    have hu : fullDB.users =
        (List.range MAX_USERS).map (fun i => (i, capacityStubUser)) := rfl
    rw [hu, List.length_map, List.length_range]
  exact ⟨hlen, create_at_capacity_fails_unchanged fullDB hlen "new@x.com"
    "New User" "pw" none 0⟩

/-- C3: in any store holding two distinct records `A` and `B` whose email
index maps `B`'s normalized email to `B`, updating `A`'s email to `B`'s
normalized email fails with the conflict error and returns the store
completely unchanged — the throw happens before any mutation, so the
operation is atomic. -/
theorem update_email_conflict_unchanged (db : DB) (a b : Nat)
    (ua ub : StoredUser) (ha : mapGet db.users a = some ua)
    (hb : mapGet db.users b = some ub) (hab : a ≠ b)
    (hidx : mapGet db.emailIndex (normalizeEmail ub.email) = some b)
    (hnz : normalizeEmail ub.email ≠ "")
    (hne : normalizeEmail ub.email ≠ ua.email) (up : UserUpdates)
    (hup : up.email = some (normalizeEmail ub.email)) :
    updateUser db a up = (Except.error "Email already exists", db) := by
  have hhas : mapHas db.emailIndex
      (normalizeEmail (normalizeEmail ub.email)) = true := by
    rw [normalizeEmail_idem, mapHas_iff]
    exact ⟨b, hidx⟩
  simp only [updateUser, ha, hup]
  rw [if_pos ⟨hnz, hne⟩, if_pos hhas]

/-- C3 witness: the conflict theorem applied to the concrete two-record
store. -/
theorem update_email_conflict_unchanged_witness :
    updateUser conflictDB 0
      { email := some (normalizeEmail conflictUB.email), name := none,
        role := none, isActive := none, lastLogin := none, stats := none } =
      (Except.error "Email already exists", conflictDB) :=
  update_email_conflict_unchanged conflictDB 0 1 conflictUA conflictUB
    (by decide) (by decide) (by decide) (by decide) (by decide) (by decide)
    { email := some (normalizeEmail conflictUB.email), name := none,
      role := none, isActive := none, lastLogin := none, stats := none }
    rfl

/-! ## Order facts for the backup key sort -/

theorem ltChars_asymm : ∀ {a b : List Char},
    ltChars a b = true → ltChars b a = false := by
  intro a
  induction a with
  | nil =>
    intro b h
    cases b with
    | nil => cases h
    | cons y ys => rfl
  | cons x xs ih =>
    intro b h
    cases b with
    | nil => cases h
    | cons y ys =>
      by_cases hxy : x < y
      · have hyx : ¬ y < x := lt_asymm hxy
        simp only [ltChars, if_neg hyx, if_pos hxy]
      · by_cases hyx : y < x
        · simp only [ltChars, if_neg hxy, if_pos hyx] at h
          cases h
        · simp only [ltChars, if_neg hxy, if_neg hyx] at h ⊢
          exact ih h

theorem ltChars_connex : ∀ {a b : List Char},
    ltChars a b = false → ltChars b a = true ∨ a = b := by
  intro a
  induction a with
  | nil =>
    intro b h
    cases b with
    | nil => exact Or.inr rfl
    | cons y ys => cases h
  | cons x xs ih =>
    intro b h
    cases b with
    | nil => exact Or.inl rfl
    | cons y ys =>
      by_cases hxy : x < y
      · simp only [ltChars, if_pos hxy] at h
        cases h
      · by_cases hyx : y < x
        · exact Or.inl (by simp only [ltChars, if_pos hyx])
        · simp only [ltChars, if_neg hxy, if_neg hyx] at h
          have hx : x = y := le_antisymm (not_lt.mp hyx) (not_lt.mp hxy)
          rcases ih h with h' | h'
          · exact Or.inl (by simp only [ltChars, if_neg hxy, if_neg hyx, h'])
          · exact Or.inr (by rw [hx, h'])

theorem ltChars_trans : ∀ {a b c : List Char},
    ltChars a b = true → ltChars b c = true → ltChars a c = true := by
  intro a
  induction a with
  | nil =>
    intro b c hab hbc
    cases c with
    | nil =>
      cases b with
      | nil => cases hab
      | cons y ys => cases hbc
    | cons z zs => rfl
  | cons x xs ih =>
    intro b c hab hbc
    cases b with
    | nil => cases hab
    | cons y ys =>
      cases c with
      | nil => cases hbc
      | cons z zs =>
        by_cases hyz : y < z
        · by_cases hxy : x < y
          · have hxz : x < z := lt_trans hxy hyz
            simp only [ltChars, if_pos hxz]
          · by_cases hyx : y < x
            · simp only [ltChars, if_neg hxy, if_pos hyx] at hab
              cases hab
            · have hx : x = y := le_antisymm (not_lt.mp hyx) (not_lt.mp hxy)
              have hxz : x < z := hx ▸ hyz
              simp only [ltChars, if_pos hxz]
        · by_cases hzy : z < y
          · simp only [ltChars, if_neg hyz, if_pos hzy] at hbc
            cases hbc
          · have hy : y = z := le_antisymm (not_lt.mp hzy) (not_lt.mp hyz)
            simp only [ltChars, if_neg hyz, if_neg hzy] at hbc
            by_cases hxy : x < y
            · have hxz : x < z := hy ▸ hxy
              simp only [ltChars, if_pos hxz]
            · by_cases hyx : y < x
              · simp only [ltChars, if_neg hxy, if_pos hyx] at hab
                cases hab
              · have hx : x = y := le_antisymm (not_lt.mp hyx) (not_lt.mp hxy)
                simp only [ltChars, if_neg hxy, if_neg hyx] at hab
                have hxz : ¬ x < z := by rw [hx, hy]; exact lt_irrefl z
                have hzx : ¬ z < x := by rw [hx, hy]; exact lt_irrefl z
                simp only [ltChars, if_neg hxz, if_neg hzx]
                exact ih hab hbc

theorem keyGe_trans {a b c : String} (hab : keyGe a b) (hbc : keyGe b c) :
    keyGe a c := by
  unfold keyGe at hab hbc ⊢
  cases hac : ltChars a.data c.data with
  | false => rfl
  | true =>
    exfalso
    rcases ltChars_connex hab with h' | h'
    · have := ltChars_trans h' hac
      rw [hbc] at this
      cases this
    · rw [h'] at hac
      rw [hac] at hbc
      cases hbc

theorem mem_insertDesc (x z : String) (l : List String) :
    z ∈ insertDesc x l ↔ z = x ∨ z ∈ l := by
  induction l with
  | nil => simp [insertDesc]
  | cons y ys ih =>
    unfold insertDesc
    by_cases hlt : ltChars x.data y.data
    · rw [if_pos hlt]
      simp only [List.mem_cons, ih]
      tauto
    · rw [if_neg hlt]
      simp [List.mem_cons]

theorem length_insertDesc (x : String) (l : List String) :
    (insertDesc x l).length = l.length + 1 := by
  induction l with
  | nil => rfl
  | cons y ys ih =>
    unfold insertDesc
    by_cases hlt : ltChars x.data y.data
    · rw [if_pos hlt]
      simp [ih]
    · rw [if_neg hlt]
      simp

theorem mem_sortKeysDesc (z : String) (l : List String) :
    z ∈ sortKeysDesc l ↔ z ∈ l := by
  induction l with
  | nil => simp [sortKeysDesc]
  | cons y ys ih =>
    unfold sortKeysDesc
    rw [mem_insertDesc]
    simp [ih]

theorem length_sortKeysDesc (l : List String) :
    (sortKeysDesc l).length = l.length := by
  induction l with
  | nil => rfl
  | cons y ys ih =>
    unfold sortKeysDesc
    rw [length_insertDesc, ih]
    rfl

theorem nodup_insertDesc {x : String} {l : List String} (hl : l.Nodup)
    (hx : x ∉ l) : (insertDesc x l).Nodup := by
  induction l with
  | nil => simp [insertDesc]
  | cons z zs ih =>
    rw [List.nodup_cons] at hl
    have hxz : x ≠ z := fun hc => hx (hc ▸ List.mem_cons_self _ _)
    have hxzs : x ∉ zs := fun hc => hx (List.mem_cons_of_mem _ hc)
    unfold insertDesc
    by_cases hlt : ltChars x.data z.data
    · rw [if_pos hlt, List.nodup_cons]
      refine ⟨?_, ih hl.2 hxzs⟩
      intro hc
      rcases (mem_insertDesc x z zs).mp hc with h' | h'
      · exact hxz h'.symm
      · exact hl.1 h'
    · rw [if_neg hlt, List.nodup_cons]
      exact ⟨hx, List.nodup_cons.mpr hl⟩

theorem nodup_sortKeysDesc {l : List String} (h : l.Nodup) :
    (sortKeysDesc l).Nodup := by
  induction l with
  | nil => exact List.nodup_nil
  | cons y ys ih =>
    rw [List.nodup_cons] at h
    exact nodup_insertDesc (ih h.2)
      (fun hc => h.1 ((mem_sortKeysDesc y ys).mp hc))

theorem sorted_insertDesc (x : String) {l : List String}
    (h : l.Pairwise keyGe) : (insertDesc x l).Pairwise keyGe := by
  induction l with
  | nil => simp [insertDesc]
  | cons y ys ih =>
    rw [List.pairwise_cons] at h
    unfold insertDesc
    by_cases hlt : ltChars x.data y.data
    · rw [if_pos hlt]
      rw [List.pairwise_cons]
      constructor
      · intro z hz
        rcases (mem_insertDesc x z ys).mp hz with h' | h'
        · rw [h']
          exact ltChars_asymm hlt
        · exact h.1 z h'
      · exact ih h.2
    · rw [if_neg hlt]
      have hge : keyGe x y := by simpa [keyGe] using hlt
      rw [List.pairwise_cons]
      constructor
      · intro z hz
        rcases List.mem_cons.mp hz with h' | h'
        · rw [h']
          exact hge
        · exact keyGe_trans hge (h.1 z h')
      · rw [List.pairwise_cons]
        exact h

theorem sorted_sortKeysDesc (l : List String) :
    (sortKeysDesc l).Pairwise keyGe := by
  induction l with
  | nil => exact List.Pairwise.nil
  | cons y ys ih => exact sorted_insertDesc y ih

theorem pairwise_take_drop_keyGe {l : List String} (h : l.Pairwise keyGe)
    (n : Nat) : ∀ a ∈ l.take n, ∀ b ∈ l.drop n, keyGe a b := by
  have h2 := h
  rw [← List.take_append_drop n l] at h2
  exact (List.pairwise_append.mp h2).2.2

theorem nodup_addBackupKey {ks : List String} {k : String} (h : ks.Nodup) :
    (addBackupKey ks k).Nodup := by
  unfold addBackupKey
  by_cases hk : k ∈ ks
  · rw [if_pos hk]
    exact h
  · rw [if_neg hk]
    simpa [List.nodup_append] using ⟨h, hk⟩

/-- C8: backup rotation. First, the concrete run: starting with no
backup entries, five consecutive snapshot cycles at increasing clock
values leave exactly the 3 most recent backup keys. Second, in general:
after any snapshot over a duplicate-free keyspace, the remaining keys
number `min 3` of the post-insert keyspace, and every key that was
deleted is lexicographically below (hence, for the equal-width decimal
timestamps `Date.now()` yields, older than) every key that was kept. -/
theorem backup_rotation_keeps_three_most_recent :
    (runBackups []
        [1700000000001, 1700000000002, 1700000000003, 1700000000004,
          1700000000005] =
      [backupKey 1700000000003, backupKey 1700000000004,
        backupKey 1700000000005]) ∧
    (∀ (ks : List String) (t : Nat), ks.Nodup →
      (createBackup ks t).length =
          min 3 (addBackupKey ks (backupKey t)).length ∧
        ∀ dropped ∈ addBackupKey ks (backupKey t),
          dropped ∉ createBackup ks t →
            ∀ kept ∈ createBackup ks t, keyGe kept dropped) := by
  constructor
  · decide
  · intro ks t hnd
    have hlnd : (addBackupKey ks (backupKey t)).Nodup := nodup_addBackupKey hnd
    set l := addBackupKey ks (backupKey t) with hl
    have hresult : createBackup ks t =
        l.filter (fun k => k ∈ (sortKeysDesc l).take 3) := rfl
    have hmem : ∀ x, x ∈ createBackup ks t ↔
        x ∈ (sortKeysDesc l).take 3 := by
      intro x
      rw [hresult, List.mem_filter]
      constructor
      · rintro ⟨h1, h2⟩
        simpa using h2
      · intro hx
        refine ⟨?_, by simpa using hx⟩
        have hxs : x ∈ sortKeysDesc l :=
          (List.take_sublist 3 (sortKeysDesc l)).mem hx
        exact (mem_sortKeysDesc _ _).mp hxs
    constructor
    · have hknd : ((sortKeysDesc l).take 3).Nodup :=
        (List.take_sublist _ _).nodup (nodup_sortKeysDesc hlnd)
      have hrnd : (createBackup ks t).Nodup := by
        rw [hresult]
        exact (List.filter_sublist _).nodup hlnd
      have hperm : (createBackup ks t).Perm ((sortKeysDesc l).take 3) :=
        (List.perm_ext_iff_of_nodup hrnd hknd).mpr hmem
      rw [hperm.length_eq, List.length_take, length_sortKeysDesc]
    · intro dropped hdl hdn kept hk
      have hds : dropped ∈ sortKeysDesc l := (mem_sortKeysDesc _ _).mpr hdl
      have hdt : dropped ∉ (sortKeysDesc l).take 3 := fun hc =>
        hdn ((hmem dropped).mpr hc)
      have hdd : dropped ∈ (sortKeysDesc l).drop 3 := by
        have := List.take_append_drop 3 (sortKeysDesc l)
        rw [← this] at hds
        rcases List.mem_append.mp hds with h' | h'
        · exact absurd h' hdt
        · exact h'
      have hkt : kept ∈ (sortKeysDesc l).take 3 := (hmem kept).mp hk
      exact pairwise_take_drop_keyGe (sorted_sortKeysDesc l) 3 kept hkt
        dropped hdd

/-- C8 witness: the general rotation statement applied to a concrete
keyspace of three backups receiving a fourth snapshot. -/
theorem backup_rotation_keeps_three_most_recent_witness :
    (createBackup backupKs3 1700000000004).length =
        min 3 (addBackupKey backupKs3 (backupKey 1700000000004)).length ∧
      keyGe (backupKey 1700000000004) (backupKey 1700000000001) := by
  have h := backup_rotation_keeps_three_most_recent.2 backupKs3 1700000000004
    (by decide)
  refine ⟨h.1, ?_⟩
  exact h.2 (backupKey 1700000000001) (by decide) (by decide)
    (backupKey 1700000000004) (by decide)

/-- C5 counterexample: in a reachable store where one user has spent 100
with 0 orders and another has spent 50 with 1 order, the code returns
`averageOrderValue = 150` (total spend of ALL users divided by the
floored count of ordering users), while the claimed quantity — the
average spend computed among only the users with at least one order —
is 50. -/
theorem averageOrderValue_counterexample :
    (getStats statsDB 0).averageOrderValue = 150 ∧
      averageSpendAmongOrderers statsDB = 50 ∧
      (getStats statsDB 0).averageOrderValue ≠
        averageSpendAmongOrderers statsDB := by
  have husers : getAllUsers statsDB = [statsUserA, statsUserB] := by decide
  have h1 : (getStats statsDB 0).averageOrderValue = 150 := by
    simp only [getStats, husers]
    norm_num [statsUserA, statsUserB, List.filter, List.foldl]
  have h2 : averageSpendAmongOrderers statsDB = 50 := by
    simp only [averageSpendAmongOrderers, husers]
    norm_num [statsUserA, statsUserB, List.filter, List.foldl]
  refine ⟨h1, h2, ?_⟩
  rw [h1, h2]
  norm_num

theorem foldl_totalSpent (l : List User) (init : ℚ) :
    l.foldl (fun sum u => sum + u.stats.totalSpent) init =
      init + (l.map (fun u => u.stats.totalSpent)).sum := by
  induction l generalizing init with
  | nil => simp
  | cons a t ih =>
    rw [List.foldl_cons, ih, List.map_cons, List.sum_cons]
    ring

/-- C5 (amended): for every store state and clock value,
`averageOrderValue` equals the total spend summed over ALL users divided
by the number of users with at least one order floored at 1; and for the
store of 10 users created at the current instant with 0 orders each,
`newUsersThisWeek = 10` and `averageOrderValue = 0`. -/
theorem averageOrderValue_total_spend_over_orderers :
    (∀ (db : DB) (now : Nat),
      (getStats db now).averageOrderValue =
        ((getAllUsers db).map (fun u => u.stats.totalSpent)).sum /
          ((max ((getAllUsers db).filter
              (fun u => u.stats.totalOrders > 0)).length 1 : Nat) : ℚ)) ∧
      (getStats tenUserDB 1800000000000).newUsersThisWeek = 10 ∧
      (getStats tenUserDB 1800000000000).averageOrderValue = 0 := by
  have hform : ∀ (db : DB) (now : Nat),
      (getStats db now).averageOrderValue =
        ((getAllUsers db).map (fun u => u.stats.totalSpent)).sum /
          ((max ((getAllUsers db).filter
              (fun u => u.stats.totalOrders > 0)).length 1 : Nat) : ℚ) := by
    intro db now
    simp only [getStats]
    rw [foldl_totalSpent, zero_add]
  refine ⟨hform, by decide, ?_⟩
  rw [hform]
  have hmap : (getAllUsers tenUserDB).map (fun u => u.stats.totalSpent) =
      List.replicate 10 0 := by decide
  rw [hmap]
  simp

/-- C6 counterexample: a data line missing its required email field
altogether (fewer than 3 comma-separated fields) is skipped silently —
the import reports no error message for it — contradicting the claim
that a line whose required email field is missing accumulates a
per-line error message. -/
theorem import_short_line_counterexample :
    (importUsers emptyDB shortLineCsv 0).1.imported = 0 ∧
      (importUsers emptyDB shortLineCsv 0).1.errors = [] := by
  constructor <;> decide

/-- C6 (amended): import processes each data line independently and
never aborts: a line with fewer than 3 comma-separated fields is skipped
silently with no error message; a line with at least 3 fields whose
dequoted email or name is empty is skipped with a per-line
`Missing required fields` error naming the 1-based line number; a line
with at least 3 fields, nonempty dequoted email and name, whose dequoted
email is already in the email index is skipped with a per-line
`Email ... already exists` error; the concrete CSV of three data rows
with one malformed row (empty email field) yields `imported = 2` and
exactly one error message referencing the malformed line; and the
concrete CSV of two data rows carrying the same email yields
`imported = 1` and exactly one duplicate-email error for the second
row. -/
theorem import_per_line_behavior :
    (∀ (now i : Nat) (line : String) (rest : List String) (db : DB)
        (imported : Nat) (errors : List String),
      (jsSplit ',' line).length < 3 →
        importGo now i (line :: rest) db imported errors =
          importGo now (i + 1) rest db imported errors) ∧
      (∀ (now i : Nat) (line : String) (rest : List String) (db : DB)
          (imported : Nat) (errors : List String),
        ¬ (jsSplit ',' line).length < 3 →
          (stripQuotes ((jsSplit ',' line).getD 2 "") = "" ∨
            stripQuotes ((jsSplit ',' line).getD 1 "") = "") →
          importGo now i (line :: rest) db imported errors =
            importGo now (i + 1) rest db imported
              (errors ++
                ["Line " ++ toString (i + 1) ++ ": Missing required fields"])) ∧
      (∀ (now i : Nat) (line : String) (rest : List String) (db : DB)
          (imported : Nat) (errors : List String),
        ¬ (jsSplit ',' line).length < 3 →
          ¬ (stripQuotes ((jsSplit ',' line).getD 2 "") = "" ∨
              stripQuotes ((jsSplit ',' line).getD 1 "") = "") →
          mapHas db.emailIndex (stripQuotes ((jsSplit ',' line).getD 2 "")) =
            true →
          importGo now i (line :: rest) db imported errors =
            importGo now (i + 1) rest db imported
              (errors ++
                ["Line " ++ toString (i + 1) ++ ": Email " ++
                  stripQuotes ((jsSplit ',' line).getD 2 "") ++
                  " already exists"])) ∧
      (importUsers emptyDB importCsvInstance 0).1 =
        { imported := 2, errors := ["Line 3: Missing required fields"] } ∧
      (importUsers emptyDB dupEmailCsv 0).1 =
        { imported := 1,
          errors := ["Line 3: Email alice@x.com already exists"] } := by
  refine ⟨?_, ?_, ?_, by decide, by decide⟩
  · intro now i line rest db imported errors h
    simp only [importGo]
    rw [if_pos h]
  · intro now i line rest db imported errors h1 h2
    simp only [importGo]
    rw [if_neg h1, if_pos h2]
  · intro now i line rest db imported errors h1 h2 h3
    simp only [importGo]
    rw [if_neg h1, if_neg h2, if_pos h3]

/-- C1 counterexample: `createUser` performs no email-uniqueness check,
so creating a second user with an already-registered email silently
overwrites the email-index entry. After two creates with the same email,
user 0 still exists but the email index resolves its email to user 1:
the claimed email-index consistency fails. -/
theorem create_duplicate_email_counterexample :
    ¬ emailAgree (runOps emptyDB dupEmailOps).users
        (runOps emptyDB dupEmailOps).emailIndex := by
  rintro ⟨-, h2⟩
  have h0 : mapGet (runOps emptyDB dupEmailOps).users 0 =
      some (newUserRec 0 "a@x.com" "A B" "p" none 0) := by decide
  exact absurd (h2 0 _ h0) (by decide)

/-- C1 (amended): along any trace from the empty store in which no
create reuses an already-indexed normalized email and every email update
supplies a nonempty already-normalized address, the email index stays
consistent with the user table: each index entry points at a live record
carrying that normalized email, and each record's normalized email
indexes back to its own identifier. -/
theorem email_index_consistent_of_safe (ops : List Op)
    (hsafe : emailSafeTrace emptyDB ops = true) :
    emailAgree (runOps emptyDB ops).users (runOps emptyDB ops).emailIndex :=
  (emailInv_runOps ops emptyDB emailAgree_empty storedNorm_empty
    freshIds_empty hsafe).1

/-- Witness: the amended C1 theorem applied to a concrete safe trace. -/
theorem email_index_consistent_of_safe_witness :
    emailSafeTrace emptyDB safeEmailOps = true ∧
      emailAgree (runOps emptyDB safeEmailOps).users
        (runOps emptyDB safeEmailOps).emailIndex :=
  ⟨by decide, email_index_consistent_of_safe safeEmailOps (by decide)⟩

/-- C4: after any sequence of operations from the empty store (with
every role supplied by an update drawn from the source's role union
type, hence nonempty), each record's identifier appears in the role
bucket matching its current role field and in no other role bucket. -/
theorem role_index_partitions (ops : List Op) (htyped : typedOps ops = true) :
    ∀ id u, mapGet (runOps emptyDB ops).users id = some u →
      id ∈ roleBucket (runOps emptyDB ops) u.role ∧
        ∀ r, r ≠ u.role → id ∉ roleBucket (runOps emptyDB ops) r := by
  have hR := roleAgree_runOps ops emptyDB freshIds_empty roleAgree_empty htyped
  intro id u hu
  refine ⟨(hR u.role id).mpr ⟨u, hu, rfl⟩, ?_⟩
  intro r hr hmem
  obtain ⟨u', hu', hrole⟩ := (hR r id).mp hmem
  rw [hu] at hu'
  injection hu' with h
  rw [← h] at hrole
  exact hr hrole.symm

/-- Witness: the C4 theorem applied to a concrete trace; user 0 sits in
the `admin` bucket and not in the `user` bucket. -/
theorem role_index_partitions_witness :
    0 ∈ roleBucket (runOps emptyDB roleWitnessOps) "admin" ∧
      0 ∉ roleBucket (runOps emptyDB roleWitnessOps) "user" := by
  have h := role_index_partitions roleWitnessOps (by decide) 0
    { newUserRec 0 "a@x.com" "A B" "p" none 0 with role := "admin" }
    (by decide)
  exact ⟨h.1, h.2 "user" (by decide)⟩

/-- C7 counterexample: `updateUser` never refreshes the name-token index
on a name change, so after renaming the only user from `Alice Smith` to
`Bob Jones` the incremental index still lists user 0 under the stale
token `alice`, while the rebuild drops it: the rebuild path does not
reproduce the incremental state. -/
theorem name_index_rebuild_counterexample :
    0 ∈ nameBucket (runOps emptyDB nameChangeOps) "alice" ∧
      0 ∉ nameBucket (buildIndexes (runOps emptyDB nameChangeOps)) "alice" := by
  constructor <;> decide

/-- C7 (amended): for every state reached from the empty store, the
rebuilt role index has exactly the incremental role buckets; and when no
operation of the trace changes a name through `updateUser`, the rebuilt
name-token index likewise has exactly the incremental name buckets. -/
theorem rebuild_matches_incremental (ops : List Op)
    (htyped : typedOps ops = true) :
    (∀ r y, y ∈ roleBucket (buildIndexes (runOps emptyDB ops)) r ↔
        y ∈ roleBucket (runOps emptyDB ops) r) ∧
      (noNameUpdates ops = true →
        ∀ t y, y ∈ nameBucket (buildIndexes (runOps emptyDB ops)) t ↔
          y ∈ nameBucket (runOps emptyDB ops) t) := by
  have hnd := nodupKeys_runOps ops emptyDB nodupKeys_empty
  constructor
  · have hR := roleAgree_runOps ops emptyDB freshIds_empty roleAgree_empty
      htyped
    intro r y
    simp only [buildIndexes]
    rw [roleBucket_buildFold]
    constructor
    · rintro (h | ⟨⟨py, pu⟩, hp, rfl, hrole⟩)
      · simp [roleBucket, mapGet] at h
      · exact (hR r py).mpr ⟨pu, mapGet_eq_of_mem_nodup hnd hp, hrole⟩
    · intro h
      obtain ⟨u, hu, hrole⟩ := (hR r y).mp h
      exact Or.inr ⟨(y, u), mapGet_some_mem hu, rfl, hrole⟩
  · intro hfree
    have hN := nameAgree_runOps ops emptyDB freshIds_empty nameAgree_empty
      hfree
    intro t y
    simp only [buildIndexes]
    rw [nameBucket_buildFold]
    constructor
    · rintro (h | ⟨⟨py, pu⟩, hp, rfl, htok⟩)
      · simp [nameBucket, mapGet] at h
      · exact (hN t py).mpr ⟨pu, mapGet_eq_of_mem_nodup hnd hp, htok⟩
    · intro h
      obtain ⟨u, hu, htok⟩ := (hN t y).mp h
      exact Or.inr ⟨(y, u), mapGet_some_mem hu, rfl, htok⟩

/-- Witness: the amended C7 theorem applied to a concrete trace. -/
theorem rebuild_matches_incremental_witness :
    (0 ∈ roleBucket (buildIndexes (runOps emptyDB rebuildWitnessOps)) "user" ↔
        0 ∈ roleBucket (runOps emptyDB rebuildWitnessOps) "user") ∧
      (0 ∈ nameBucket (buildIndexes (runOps emptyDB rebuildWitnessOps))
          "alice" ↔
        0 ∈ nameBucket (runOps emptyDB rebuildWitnessOps) "alice") := by
  have h := rebuild_matches_incremental rebuildWitnessOps (by decide)
  exact ⟨h.1 "user" 0, h.2 (by decide) "alice" 0⟩

/-- C9: `searchUsers` splits the query into lower-cased
whitespace-delimited terms and returns exactly the records whose stored
identifier is hit by some term — a name-token key or an indexed email
containing the term as a substring (OR semantics across terms); and on
the concrete store with `Anita Sharma` and `Rohan Sharma`, searching
`sharma` returns both records while searching `anita` returns only the
first. -/
theorem search_union_substring_semantics :
    (∀ (db : DB) (q : String) (v : User),
      v ∈ searchUsers db q ↔
        ∃ y, searchMatch db q y ∧ findUserById db y = some v) ∧
      searchUsers (runOps emptyDB sharmaOps) "sharma" =
        [stripPassword (newUserRec 0 "a@x.com" "Anita Sharma" "p" none 0),
          stripPassword (newUserRec 1 "r@y.com" "Rohan Sharma" "p" none 0)] ∧
      searchUsers (runOps emptyDB sharmaOps) "anita" =
        [stripPassword (newUserRec 0 "a@x.com" "Anita Sharma" "p" none 0)] :=
  ⟨mem_searchUsers, by decide, by decide⟩

/-- C10: for every non-empty reachable store, searching with the empty
query returns exactly the stored records with the password stripped:
the empty query tokenizes to the single empty term, which is a substring
of every name-token key, and every record is reachable from the
name-token index. -/
theorem empty_query_returns_all (ops : List Op)
    (hne : (runOps emptyDB ops).users ≠ []) :
    ∀ v, v ∈ searchUsers (runOps emptyDB ops) "" ↔
      ∃ id u, mapGet (runOps emptyDB ops).users id = some u ∧
        stripPassword u = v := by
  have hcov := covered_runOps ops emptyDB covered_empty
  intro v
  rw [mem_searchUsers]
  constructor
  · rintro ⟨y, hmatch, hf⟩
    obtain ⟨u, hu, hv⟩ := Option.map_eq_some'.mp hf
    exact ⟨y, u, hu, hv⟩
  · rintro ⟨id, u, hu, rfl⟩
    refine ⟨id, ⟨"", by decide, Or.inl ?_⟩, by simp [findUserById, hu]⟩
    obtain ⟨t, ht⟩ := hcov id u hu
    cases hmg : mapGet (runOps emptyDB ops).nameIndex t with
    | none => rw [hmg] at ht; cases ht
    | some b =>
      rw [hmg] at ht
      exact ⟨(t, b), mapGet_some_mem hmg, containsSub_nil t.data, ht⟩

/-- Witness: the C10 theorem applied to a concrete one-record store. -/
theorem empty_query_returns_all_witness :
    (runOps emptyDB emptyQueryOps).users ≠ [] ∧
      (stripPassword (newUserRec 0 "a@x.com" "Alice Smith" "pw" none 0) ∈
          searchUsers (runOps emptyDB emptyQueryOps) "" ↔
        ∃ id u, mapGet (runOps emptyDB emptyQueryOps).users id = some u ∧
          stripPassword u =
            stripPassword (newUserRec 0 "a@x.com" "Alice Smith" "pw" none 0)) :=
  ⟨by decide, empty_query_returns_all emptyQueryOps (by decide) _⟩

/-- Witness: the amended C6 theorem applied to concrete lines — a
2-field line is skipped with no error, a 3-field line with an empty
dequoted name appends the missing-fields error, and a 3-field line whose
email is already indexed appends the duplicate-email error. -/
theorem import_per_line_behavior_witness :
    importGo 0 1 ["a,b"] emptyDB 0 [] = importGo 0 2 [] emptyDB 0 [] ∧
      importGo 0 2 ["id,\"\",x@y.com"] emptyDB 0 [] =
        importGo 0 3 [] emptyDB 0
          ([] ++ ["Line 3: Missing required fields"]) ∧
      importGo 0 2 ["id,\"N\",x@y.com"] dupCheckDB 0 [] =
        importGo 0 3 [] dupCheckDB 0
          ([] ++ ["Line 3: Email x@y.com already exists"]) :=
  ⟨import_per_line_behavior.1 0 1 "a,b" [] emptyDB 0 [] (by decide),
    import_per_line_behavior.2.1 0 2 "id,\"\",x@y.com" [] emptyDB 0 []
      (by decide) (by decide),
    import_per_line_behavior.2.2.1 0 2 "id,\"N\",x@y.com" [] dupCheckDB 0 []
      (by decide) (by decide) (by decide)⟩
